import Mathlib

/-!
Shallow embedding of the schema-driven data store and column-reconciliation
engine of the ai-erp server (`src/server/index.js`: the `AIService` and
`DataStore` classes).  JavaScript objects (rows) are modelled as association
lists from keys to a closed scalar `Value` type; a key that is absent models a
JS property that is `undefined`.  The ambient clock (`new Date()`), the uuid
generator (`uuidv4`) and the AI oracle are externals: the clock is passed as an
explicit `now : String` argument, the uuid source is a counter stored in the
store state producing injectively tagged fresh strings, and the oracle is a
function parameter.
-/

/-- Scalar values a row field can hold (JSON scalars; `undefined` is modelled
as absence of the key). -/
inductive Value where
  | str (s : String)
  | num (n : Int)
  | null
deriving DecidableEq, Repr

/-- JS truthiness of a `Value` (`''`, `0` and `null` are falsy). -/
def Value.truthy : Value → Bool
  | .str s => s ≠ ""
  | .num n => n ≠ 0
  | .null => false

/-- A row: a JS object, modelled as an association list (first binding wins). -/
abbrev Row := List (String × Value)

/-- First-occurrence lookup, modelling JS property access (`none` = `undefined`). -/
def lookupA {α : Type} : List (String × α) → String → Option α
  | [], _ => none
  | (k', v) :: r, k => if k' = k then some v else lookupA r k

/-- Property assignment: replace the first binding of the key, or append. -/
def setA {α : Type} : List (String × α) → String → α → List (String × α)
  | [], k, v => [(k, v)]
  | (k', v') :: r, k, v => if k' = k then (k', v) :: r else (k', v') :: setA r k v

/-- Remove the first binding of a key (models assigning `undefined`). -/
def eraseA {α : Type} : List (String × α) → String → List (String × α)
  | [], _ => []
  | (k', v') :: r, k => if k' = k then r else (k', v') :: eraseA r k

/-- Key presence, modelling `Map.has` / `in`. -/
def hasA {α : Type} (m : List (String × α)) (k : String) : Bool :=
  (lookupA m k).isSome

theorem lookupA_setA_self {α : Type} (m : List (String × α)) (k : String) (v : α) :
    lookupA (setA m k v) k = some v := by
  induction m with
  | nil => simp [setA, lookupA]
  | cons p r ih =>
    obtain ⟨k', v'⟩ := p
    by_cases h : k' = k <;> simp [setA, lookupA, h, ih]

theorem lookupA_setA_ne {α : Type} (m : List (String × α)) (k k' : String) (v : α)
    (hne : k' ≠ k) : lookupA (setA m k v) k' = lookupA m k' := by
  have hne' : ¬ (k = k') := fun h => hne h.symm
  induction m with
  | nil => simp [setA, lookupA, hne']
  | cons p r ih =>
    obtain ⟨k₀, v₀⟩ := p
    by_cases h : k₀ = k
    · subst h
      simp [setA, lookupA, hne']
    · by_cases h' : k₀ = k' <;> simp [setA, lookupA, h, h', hne, ih]

/-- The field types of the schema enum. -/
inductive ColType where
  | string | number | email | phone | date | select | textarea
deriving DecidableEq, Repr

/-- A schema column (`validation` only ever produces console warnings in the
source — it alters neither the row nor the schema — and is not modelled). -/
structure Column where
  name : String
  type : ColType
  label : String
  required : Bool
  readOnly : Bool
  generated : Bool
  options : Option (List Value)
deriving DecidableEq, Repr

/-- Whether the first list is an initial segment of the second. -/
def leadsWith : List Char → List Char → Bool
  | [], _ => true
  | _ :: _, [] => false
  | a :: as, b :: bs => a == b && leadsWith as bs

/-- Substring containment on char lists (hay contains needle). -/
def containsSeq (hay needle : List Char) : Bool :=
  match hay with
  | [] => needle.isEmpty
  | _ :: t => leadsWith needle hay || containsSeq t needle

/-- Model of JS `hay.includes(needle)`. -/
def jsIncludes (hay needle : String) : Bool :=
  containsSeq hay.toList needle.toList

/-- Model of JS `String.prototype.toLowerCase` (ASCII case mapping, which is
all the source's comparisons rely on; non-ASCII characters are unchanged). -/
def jsToLower (s : String) : String :=
  String.mk (s.toList.map Char.toLower)

/-- Model of JS `String.prototype.trim`. -/
def jsTrim (s : String) : String :=
  String.mk (((s.toList.dropWhile Char.isWhitespace).reverse.dropWhile
    Char.isWhitespace).reverse)

/-- One column-match record `{source, target, confidence}`. -/
structure ColMatch where
  source : String
  target : String
  confidence : ℚ
deriving DecidableEq, Repr

/-- The static synonym table of `AIService.ruleBasedMatching`, keyed by the
lowercased canonical target field name. -/
def synonyms (key : String) : List String :=
  if key = "name" then
    ["이름", "성명", "사용자명", "고객명", "username", "user_name", "customer_name", "명", "성함"]
  else if key = "email" then ["이메일", "메일", "e-mail", "mail", "전자우편"]
  else if key = "phone" then
    ["전화", "전화번호", "tel", "telephone", "mobile", "휴대폰", "연락처", "핸드폰"]
  else if key = "address" then ["주소", "addr", "거주지", "소재지"]
  else if key = "department" then ["부서", "dept", "소속", "팀"]
  else if key = "position" then ["직급", "직위", "title", "포지션"]
  else if key = "status" then ["상태", "state", "진행상태", "처리상태"]
  else if key = "date" then ["날짜", "일자", "일시"]
  else if key = "amount" then ["금액", "가격", "price", "cost", "비용"]
  else if key = "quantity" then ["수량", "qty", "개수", "갯수"]
  else if key = "description" then ["설명", "비고", "desc", "note", "메모", "내용"]
  else []

/-- The body of the inner `for (const target of targetColumns)` loop of
`ruleBasedMatching`, for one target: exact name/label equality (confidence
1.0), else synonym containment (0.9), else substring containment (0.8), else
no match for this target.  `sourceLower` is the lowercased and trimmed source
label. -/
def tryRules (sourceLower : String) (target : Column) : Option ℚ :=
  let targetLower := jsToLower target.name
  let targetLabel := jsToLower target.label
  if sourceLower = targetLower || sourceLower = targetLabel then
    some 1
  else if (synonyms targetLower).any (fun syn =>
      jsIncludes sourceLower (jsToLower syn) || jsIncludes (jsToLower syn) sourceLower) then
    some (9/10)
  else if jsIncludes sourceLower targetLower || jsIncludes targetLower sourceLower ||
      jsIncludes sourceLower targetLabel || jsIncludes targetLabel sourceLower then
    some (8/10)
  else
    none

/-- Scan the target columns in list order and return the first target related
to the source label by any of the three rules, together with the confidence
(the `break` in the source exits after the first matching target). -/
def firstTargetMatch (sourceLower : String) : List Column → Option (String × ℚ)
  | [] => none
  | t :: ts =>
    match tryRules sourceLower t with
    | some conf => some (t.name, conf)
    | none => firstTargetMatch sourceLower ts

/-- `AIService.ruleBasedMatching(sourceColumns, targetColumns)`: each source
label is resolved against the targets in order; unmatched labels contribute
nothing. -/
def ruleBasedMatching (sourceColumns : List String) (targetColumns : List Column) :
    List ColMatch :=
  sourceColumns.filterMap (fun source =>
    (firstTargetMatch (jsTrim (jsToLower source)) targetColumns).map
      (fun p => ⟨source, p.1, p.2⟩))

/-- The source labels left unmatched by the rule pass, as computed inside
`AIService.matchColumns`. -/
def unmatchedOf (sourceColumns : List String) (schemaColumns : List Column) :
    List String :=
  let matchedSources := (ruleBasedMatching sourceColumns schemaColumns).map (·.source)
  sourceColumns.filter (fun c => !matchedSources.contains c)

/-- `AIService.matchColumns(sourceColumns, schema)`.  The LLM call is the
external AI Oracle, modelled as a function from the unmatched labels and the
`(name, label)` projection of the schema columns (the two pieces of data the
prompt embeds) to either a match list or a failure. -/
def matchColumns
    (oracle : List String → List (String × String) → Except String (List ColMatch))
    (sourceColumns : List String) (schemaColumns : List Column) : List ColMatch :=
  let ruleBasedMatches := ruleBasedMatching sourceColumns schemaColumns
  let unmatched := unmatchedOf sourceColumns schemaColumns
  if unmatched.isEmpty then
    ruleBasedMatches
  else
    match oracle unmatched (schemaColumns.map (fun c => (c.name, c.label))) with
    | .ok result => ruleBasedMatches ++ result
    | .error _ => ruleBasedMatches

/-- Simplified model of JS string-to-number conversion as queried by `isNaN`:
an optional sign followed by digits with at most one decimal point (exponent,
hex and `Infinity` forms are not modelled; none occur in the development's
concrete inputs). -/
def numericChars (l : List Char) : Bool :=
  let core := match l with
              | '+' :: t => t
              | '-' :: t => t
              | t => t
  core.any Char.isDigit && core.all (fun c => c.isDigit || c = '.') &&
    (core.filter (fun c => c = '.')).length ≤ 1

/-- Model of JS `isNaN(value)` on row scalars.  Numbers and `null`
(`Number(null) = 0`) are not NaN; a string is NaN iff it does not convert to a
number (a whitespace-only string converts to 0). -/
def jsIsNaN : Value → Bool
  | .num _ => false
  | .null => false
  | .str s =>
    let t := (jsTrim s).toList
    if t.isEmpty then false else !(numericChars t)

/-- The `switch (column.type)` statement of `DataStore.validateRow`, reached
when the (already coerced) value `v` is neither `undefined` nor `null`.  The
`email`/`phone` cases and the `validation.min/max/pattern` checks of the
source only emit console warnings and never change the row or the schema;
they are therefore no-ops here. -/
def applySwitch (row : Row) (c : Column) (v : Value) : Row × Column :=
  match c.type with
  | .number =>
    if jsIsNaN v then (setA row c.name Value.null, c) else (row, c)
  | .select =>
    match c.options with
    | some opts =>
      if v ∈ opts then (row, c)
      else (row, { c with options := some (opts ++ [v]) })
    | none => (row, c)
  | _ => (row, c)

/-- One iteration of the `for (const column of schema.columns)` loop of
`DataStore.validateRow`, returning the updated row and the (possibly mutated)
column. -/
def validateCol (row : Row) (c : Column) : Row × Column :=
  let value? := lookupA row c.name
  -- required && !generated && value === undefined  →  row[name] = null
  let row := if c.required && !c.generated && value?.isNone then
               setA row c.name Value.null else row
  -- value === ''  →  row[name] = null
  let row := if value? = some (Value.str "") then setA row c.name Value.null else row
  match lookupA row c.name with
  | none => (row, c)
  | some Value.null => (row, c)
  | some v => applySwitch row c v

/-- `DataStore.validateRow(row, schema)`: fold `validateCol` over the schema's
columns, threading the row and collecting the updated columns. -/
def validateRow (row : Row) : List Column → Row × List Column
  | [] => (row, [])
  | c :: cs =>
    let rc := validateCol row c
    let rest := validateRow rc.1 cs
    (rest.1, rc.2 :: rest.2)

/-- Key-local description of what `validateCol` does to the value stored under
its own column name (`none` = key absent). -/
def coerceField (v? : Option Value) (c : Column) : Option Value :=
  match v? with
  | none => if c.required && !c.generated then some Value.null else none
  | some v =>
    if v = Value.str "" then some Value.null
    else if v = Value.null then some Value.null
    else match c.type with
         | .number => if jsIsNaN v then some Value.null else some v
         | _ => some v

/-- Key-local description of what `validateCol` does to the column itself
(only `select` columns can change, by appending an unseen option). -/
def coerceColumn (v? : Option Value) (c : Column) : Column :=
  match coerceField v? c with
  | none => c
  | some v =>
    if v = Value.null then c
    else match c.type, c.options with
         | .select, some opts =>
           if v ∈ opts then c else { c with options := some (opts ++ [v]) }
         | _, _ => c

/-- The schema draft / stored schema object (`menuData` in the source): the
fields `createMenu` and `generateSchema` read.  `menuId` is `Option` because a
draft may omit it. -/
structure MenuData where
  menuId : Option String
  menuName : String
  tableName : String
  description : String
  columns : List Column
deriving DecidableEq, Repr

/-- The menu metadata record built by `DataStore.createMenu`. -/
structure Menu where
  id : String
  name : String
  tableName : String
  description : String
  schema : MenuData
  createdAt : String
  updatedAt : String
deriving DecidableEq, Repr

/-- The in-memory `DataStore` state.  JS `Map`s are insertion-ordered key-value
maps, modelled as association lists; `dirty` is a set of menu ids.  `ctr` is
the model of the external `uuidv4` source: a counter of ids drawn so far,
turned into an injectively tagged fresh string by `freshUuid`. -/
structure Store where
  menus : List (String × Menu)
  schemas : List (String × MenuData)
  data : List (String × List Row)
  dirty : List String
  ctr : Nat
deriving DecidableEq, Repr

/-- The empty store (fresh `DataStore` before any menu is created). -/
def Store.empty : Store := ⟨[], [], [], [], 0⟩

/-- Model of the `uuidv4()` collaborator: the `n`-th generated id.  Injectivity
(distinct draws are distinct strings) is the only property the source relies
on. -/
def freshUuid (n : Nat) : String :=
  String.mk ('u' :: List.replicate n 'x')

namespace DataStore

/-- Add a menu id to the dirty set (`Set.add`). -/
def addDirty (dirty : List String) (menuId : String) : List String :=
  if dirty.contains menuId then dirty else dirty ++ [menuId]

/-- The slug step of `DataStore.generateMenuId`: lowercase, each whitespace run
to one underscore (`replace(/\s+/g, '_')`), then strip characters outside
`[a-z0-9_가-힣]`. -/
def collapseWhite (prevWhite : Bool) : List Char → List Char
  | [] => []
  | c :: cs =>
    if c.isWhitespace then
      if prevWhite then collapseWhite true cs else '_' :: collapseWhite true cs
    else c :: collapseWhite false cs

/-- Whether a character survives the `[^a-z0-9_가-힣]` strip. -/
def allowedSlugChar (c : Char) : Bool :=
  (('a' ≤ c && c ≤ 'z') || ('0' ≤ c && c ≤ '9') || c = '_' ||
    (0xAC00 ≤ c.val && c.val ≤ 0xD7A3))

/-- The slug derived from a menu name. -/
def slugify (menuName : String) : String :=
  String.mk ((collapseWhite false (jsToLower menuName).toList).filter allowedSlugChar)

/-- The `while (this.menus.has(menuId))` suffix loop of `generateMenuId`,
with explicit fuel (the loop tries pairwise-distinct candidates, so
`menus.length + 1` attempts always suffice). -/
def uniquifySuffix (menus : List (String × Menu)) (slug : String) :
    Nat → Nat → String
  | counter, 0 => slug ++ "_" ++ toString counter
  | counter, fuel + 1 =>
    let cand := slug ++ "_" ++ toString counter
    if hasA menus cand then uniquifySuffix menus slug (counter + 1) fuel else cand

/-- `DataStore.generateMenuId(menuName)`. -/
def generateMenuId (st : Store) (menuName : String) : String :=
  let slug := slugify menuName
  if hasA st.menus slug then uniquifySuffix st.menus slug 1 (st.menus.length + 1)
  else slug

/-- `DataStore.createMenu(menuData)`: `menuData.menuId || generateMenuId(...)`
(JS `||` falls through on the empty string), then unconditionally overwrite the
`menus`/`schemas` entries for that id and reset its row list to `[]`.  The
draft is stored as the schema verbatim. -/
def createMenu (now : String) (st : Store) (menuData : MenuData) : Menu × Store :=
  let menuId := match menuData.menuId with
                | some s => if s = "" then generateMenuId st menuData.menuName else s
                | none => generateMenuId st menuData.menuName
  let menu : Menu :=
    ⟨menuId, menuData.menuName, menuData.tableName, menuData.description, menuData, now, now⟩
  (menu,
   { st with
     menus := setA st.menus menuId menu
     schemas := setA st.schemas menuId menuData
     data := setA st.data menuId []
     dirty := addDirty st.dirty menuId })

/-- The stored `id` of a freshly inserted row.  The source's object literal
`{id: rowData.id || uuidv4(), ...rowData, ...}` nets out, as a key-value map,
to: the raw row's own `id` when the key is present (the spread overwrites the
generated one, even with a falsy value), else a fresh uuid. -/
def insIdVal (st : Store) (rowData : Row) : Value :=
  match lookupA rowData "id" with
  | some v => v
  | none => Value.str (freshUuid st.ctr)

/-- The uuid counter after an insert: `uuidv4()` is consumed whenever the raw
`id` is absent or falsy (its value is discarded in the falsy case). -/
def insCtr (st : Store) (rowData : Row) : Nat :=
  match lookupA rowData "id" with
  | some v => if v.truthy then st.ctr else st.ctr + 1
  | none => st.ctr + 1

/-- The object literal of `DataStore.insert` as a key-value map: `rowData`
with `id` defaulted/kept and `createdAt`/`updatedAt` stamped with the current
time. -/
def stampedRow (now : String) (st : Store) (rowData : Row) : Row :=
  setA (setA (setA rowData "id" (insIdVal st rowData))
    "createdAt" (.str now)) "updatedAt" (.str now)

/-- The row and store produced by a successful `DataStore.insert`:
`(validated {id, ...rowData, createdAt, updatedAt}, store with the row
appended and the possibly-mutated schema columns stored back)`. -/
def insertResult (now : String) (st : Store) (menuId : String) (rowData : Row)
    (schema : MenuData) : Row × Store :=
  let rows := (lookupA st.data menuId).getD []
  let vc := validateRow (stampedRow now st rowData) schema.columns
  (vc.1,
    { st with
      ctr := insCtr st rowData
      data := setA st.data menuId (rows ++ [vc.1])
      schemas := setA st.schemas menuId { schema with columns := vc.2 }
      dirty := addDirty st.dirty menuId })

/-- `DataStore.insert(menuId, rowData)`: `NotFound` on unknown menu, else
stamp generated fields, validate and append. -/
def insert (now : String) (st : Store) (menuId : String) (rowData : Row) :
    Except String (Row × Store) :=
  if hasA st.data menuId = false then .error ("Menu not found: " ++ menuId)
  else
    match lookupA st.schemas menuId with
    | none => .error "TypeError: schema missing"
    | some schema => .ok (insertResult now st menuId rowData schema)

/-- Model of `Array.prototype.findIndex`. -/
def findIdxA (p : Row → Bool) : List Row → Option Nat
  | [] => none
  | r :: rs => if p r then some 0 else (findIdxA p rs).map (· + 1)

/-- The JS object spread `{...old, ...updates}`: every binding of `updates`
written over `old`. -/
def mergeRow (old updates : Row) : Row :=
  updates.foldl (fun acc kv => setA acc kv.1 kv.2) old

/-- Restore a generated field after the merge: write the pre-update value
back, or drop the key when the old row lacked it (assigning a JS `undefined`
property, which is indistinguishable from absence). -/
def restoreKey (old merged : Row) (k : String) : Row :=
  match lookupA old k with
  | some v => setA merged k v
  | none => eraseA merged k

/-- The merged row of `DataStore.update` before validation: `{...old,
...updates}` with `id` and `createdAt` restored from the pre-update row and
`updatedAt` stamped with the current time. -/
def mergedRow (now : String) (old updates : Row) : Row :=
  setA (restoreKey old (restoreKey old (mergeRow old updates) "id")
    "createdAt") "updatedAt" (.str now)

/-- The merged-and-revalidated row stored by a successful `DataStore.update`,
together with the updated store. -/
def updateResult (now : String) (st : Store) (menuId : String) (updates : Row)
    (schema : MenuData) (index : Nat) : Row × Store :=
  let rows := (lookupA st.data menuId).getD []
  let old := rows.getD index []
  let vc := validateRow (mergedRow now old updates) schema.columns
  (vc.1,
    { st with
      data := setA st.data menuId (rows.set index vc.1)
      schemas := setA st.schemas menuId { schema with columns := vc.2 }
      dirty := addDirty st.dirty menuId })

/-- `DataStore.update(menuId, id, updates)`: find the row by strict
`row.id === id` equality, then merge, restore generated fields, stamp
`updatedAt`, validate and store in place. -/
def update (now : String) (st : Store) (menuId : String) (rid : Value)
    (updates : Row) : Except String (Row × Store) :=
  if hasA st.data menuId = false then .error ("Menu not found: " ++ menuId)
  else
    match findIdxA (fun r => lookupA r "id" == some rid)
        ((lookupA st.data menuId).getD []) with
    | none => .error "Row not found"
    | some index =>
      match lookupA st.schemas menuId with
      | none => .error "TypeError: schema missing"
      | some schema => .ok (updateResult now st menuId updates schema index)

/-- One failed entry of a bulk insert: the offending input and the error
message. -/
structure FailedEntry where
  data : Row
  error : String
deriving DecidableEq, Repr

/-- The result record of `DataStore.bulkInsert`. -/
structure BulkResult where
  success : List Row
  failed : List FailedEntry
deriving DecidableEq, Repr

/-- `DataStore.bulkInsert(menuId, rowsData)`: attempt each row independently
via `insert` (the per-row `try/catch` of the source); an error leaves the
store untouched for that row and the loop continues. -/
def bulkInsert (now : String) (st : Store) (menuId : String) :
    List Row → BulkResult × Store
  | [] => (⟨[], []⟩, st)
  | r :: rs =>
    match insert now st menuId r with
    | .ok rowSt =>
      let rest := bulkInsert now rowSt.2 menuId rs
      (⟨rowSt.1 :: rest.1.success, rest.1.failed⟩, rest.2)
    | .error msg =>
      let rest := bulkInsert now st menuId rs
      (⟨rest.1.success, ⟨r, msg⟩ :: rest.1.failed⟩, rest.2)

end DataStore

/-- The `id` column `AIService.generateSchema` prepends when absent. -/
def idColDef : Column := ⟨"id", .string, "ID", true, true, true, none⟩

/-- The `createdAt` column `generateSchema` appends when absent. -/
def createdAtColDef : Column := ⟨"createdAt", .date, "생성일시", true, true, true, none⟩

/-- The `updatedAt` column `generateSchema` appends when absent. -/
def updatedAtColDef : Column := ⟨"updatedAt", .date, "수정일시", true, true, true, none⟩

/-- First injection block of `generateSchema`: `unshift` an `id` column when
none is named `id`. -/
def withId (cols : List Column) : List Column :=
  if cols.any (fun c => c.name = "id") then cols else idColDef :: cols

/-- Second injection block: `push` a `createdAt` column when absent. -/
def withCreatedAt (cols : List Column) : List Column :=
  if cols.any (fun c => c.name = "createdAt") then cols
  else cols ++ [createdAtColDef]

/-- Third injection block: `push` an `updatedAt` column when absent. -/
def withUpdatedAt (cols : List Column) : List Column :=
  if cols.any (fun c => c.name = "updatedAt") then cols
  else cols ++ [updatedAtColDef]

/-- The post-processing of `AIService.generateSchema` on the oracle's column
list: the three sequential injection blocks of the source. -/
def ensureGenerated (cols : List Column) : List Column :=
  withUpdatedAt (withCreatedAt (withId cols))

/-- `AIService.generateSchema(prompt)`: the LLM call is the external oracle
(modelled by its result); on success the generated-field injection runs, on
failure the error is rethrown wrapped. -/
def generateSchema (oracleResult : Except String MenuData) : Except String MenuData :=
  match oracleResult with
  | .ok result => .ok { result with columns := ensureGenerated result.columns }
  | .error e => .error ("AI 스키마 생성 실패: " ++ e)

theorem setA_lookup_self {α : Type} (m : List (String × α)) (k : String) (v : α)
    (h : lookupA m k = some v) : setA m k v = m := by
  induction m with
  | nil => simp [lookupA] at h
  | cons p r ih =>
    obtain ⟨k', v'⟩ := p
    by_cases hk : k' = k
    · subst hk
      simp [lookupA] at h
      simp [setA, h]
    · simp only [lookupA, if_neg hk] at h
      simp [setA, hk, ih h]

theorem lookupA_eraseA_ne {α : Type} (m : List (String × α)) (k k' : String)
    (hne : k' ≠ k) : lookupA (eraseA m k) k' = lookupA m k' := by
  have hne' : ¬ (k = k') := fun h => hne h.symm
  induction m with
  | nil => simp [eraseA]
  | cons p r ih =>
    obtain ⟨k₀, v₀⟩ := p
    by_cases h : k₀ = k
    · subst h
      simp [eraseA, lookupA, hne']
    · by_cases h' : k₀ = k' <;> simp [eraseA, lookupA, h, h', hne, hne', ih]

/-- What the `switch` leaves under the column's own key. -/
theorem applySwitch_lookup_self (row : Row) (c : Column) (v : Value)
    (hv : lookupA row c.name = some v) (hvs : v ≠ Value.str "")
    (hvn : v ≠ Value.null) :
    lookupA (applySwitch row c v).1 c.name = coerceField (some v) c := by
  unfold applySwitch coerceField
  simp only [if_neg hvs, if_neg hvn]
  rcases c.type <;> simp only
  case number =>
    by_cases hnan : jsIsNaN v = true
    · simp [hnan, lookupA_setA_self]
    · simp only [Bool.not_eq_true] at hnan
      simp [hnan, hv]
  case select =>
    rcases c.options with _ | opts
    · exact hv
    · by_cases hmem : v ∈ opts <;> simp [hmem, hv]
  all_goals exact hv

/-- The `switch` never touches row keys other than the column's own. -/
theorem applySwitch_lookup_ne (row : Row) (c : Column) (v : Value) (k : String)
    (hk : k ≠ c.name) :
    lookupA (applySwitch row c v).1 k = lookupA row k := by
  unfold applySwitch
  rcases c.type <;> simp only
  case number =>
    by_cases hnan : jsIsNaN v = true
    · simp [hnan, lookupA_setA_ne _ _ _ _ hk]
    · simp only [Bool.not_eq_true] at hnan
      simp [hnan]
  case select =>
    rcases c.options with _ | opts
    · rfl
    · by_cases hmem : v ∈ opts <;> simp [hmem]

/-- The column the `switch` emits. -/
theorem applySwitch_snd (row : Row) (c : Column) (v : Value)
    (hvs : v ≠ Value.str "") (hvn : v ≠ Value.null) :
    (applySwitch row c v).2 = coerceColumn (some v) c := by
  unfold applySwitch coerceColumn coerceField
  simp only [if_neg hvs, if_neg hvn]
  rcases ht : c.type <;> simp only
  case number =>
    by_cases hnan : jsIsNaN v = true
    · simp [hnan]
    · simp only [Bool.not_eq_true] at hnan
      simp [hnan, hvn, ht]
  case select =>
    rcases c.options with _ | opts
    · simp [hvn, ht]
    · by_cases hmem : v ∈ opts <;> simp [hmem, hvn, ht]
  all_goals simp [hvn, ht]

/-- What `validateCol` leaves under its own column's key is `coerceField`. -/
theorem validateCol_lookup_self (row : Row) (c : Column) :
    lookupA (validateCol row c).1 c.name = coerceField (lookupA row c.name) c := by
  rcases hv : lookupA row c.name with _ | v
  · rcases hrg : c.required && !c.generated with _ | _
    · simp [validateCol, coerceField, hv, hrg]
    · simp [validateCol, coerceField, hv, hrg, lookupA_setA_self]
  · by_cases hvs : v = Value.str ""
    · subst hvs
      simp [validateCol, coerceField, hv, lookupA_setA_self]
    · by_cases hvn : v = Value.null
      · subst hvn
        simp [validateCol, coerceField, hv]
      · have hmain : lookupA (validateCol row c).1 c.name =
            lookupA (applySwitch row c v).1 c.name := by
          rcases v with s | n | _
          · have hs : ¬ (s = "") := fun h => hvs (by rw [h])
            simp [validateCol, hv, hs]
          · simp [validateCol, hv]
          · exact absurd rfl hvn
        rw [hmain, applySwitch_lookup_self row c v hv hvs hvn]

/-- `validateCol` never touches row keys other than its own column's. -/
theorem validateCol_lookup_ne (row : Row) (c : Column) (k : String)
    (hk : k ≠ c.name) :
    lookupA (validateCol row c).1 k = lookupA row k := by
  have hset : ∀ (r : Row) (v : Value), lookupA (setA r c.name v) k = lookupA r k :=
    fun r v => lookupA_setA_ne r c.name k v hk
  rcases hv : lookupA row c.name with _ | v
  · rcases hrg : c.required && !c.generated with _ | _
    · simp [validateCol, hv, hrg]
    · simp [validateCol, hv, hrg, lookupA_setA_self, hset]
  · by_cases hvs : v = Value.str ""
    · subst hvs
      simp [validateCol, hv, lookupA_setA_self, hset]
    · by_cases hvn : v = Value.null
      · subst hvn
        simp [validateCol, hv]
      · have hmain : lookupA (validateCol row c).1 k =
            lookupA (applySwitch row c v).1 k := by
          rcases v with s | n | _
          · have hs : ¬ (s = "") := fun h => hvs (by rw [h])
            simp [validateCol, hv, hs]
          · simp [validateCol, hv]
          · exact absurd rfl hvn
        rw [hmain, applySwitch_lookup_ne row c v k hk]

/-- The column `validateCol` emits is `coerceColumn`. -/
theorem validateCol_snd (row : Row) (c : Column) :
    (validateCol row c).2 = coerceColumn (lookupA row c.name) c := by
  rcases hv : lookupA row c.name with _ | v
  · rcases hrg : c.required && !c.generated with _ | _
    · simp [validateCol, coerceColumn, coerceField, hv, hrg]
    · simp [validateCol, coerceColumn, coerceField, hv, hrg, lookupA_setA_self]
  · by_cases hvs : v = Value.str ""
    · subst hvs
      simp [validateCol, coerceColumn, coerceField, hv, lookupA_setA_self]
    · by_cases hvn : v = Value.null
      · subst hvn
        simp [validateCol, coerceColumn, coerceField, hv]
      · have hmain : (validateCol row c).2 = (applySwitch row c v).2 := by
          rcases v with s | n | _
          · have hs : ¬ (s = "") := fun h => hvs (by rw [h])
            simp [validateCol, hv, hs]
          · simp [validateCol, hv]
          · exact absurd rfl hvn
        rw [hmain, applySwitch_snd row c v hvs hvn]

/-- `coerceField` keeps a present value that is neither the empty string nor
typed as a coercible number. -/
theorem coerceField_keep (c : Column) (v : Value) (hvs : v ≠ Value.str "")
    (htype : c.type ≠ ColType.number) : coerceField (some v) c = some v := by
  unfold coerceField
  simp only [if_neg hvs]
  by_cases hvn : v = Value.null
  · simp [hvn]
  · simp [if_neg hvn]

/-- `coerceField` keeps an absent value absent unless the column is required
and not generated. -/
theorem coerceField_none (c : Column) (hg : (c.required && !c.generated) = false) :
    coerceField none c = none := by
  simp [coerceField, hg]

/-- `coerceColumn` only ever changes a column's `options`. -/
theorem coerceColumn_fields (v? : Option Value) (c : Column) :
    (coerceColumn v? c).name = c.name ∧ (coerceColumn v? c).type = c.type ∧
    (coerceColumn v? c).required = c.required ∧
    (coerceColumn v? c).generated = c.generated := by
  unfold coerceColumn
  repeat' split
  all_goals exact ⟨rfl, rfl, rfl, rfl⟩

/-- `validateRow` leaves keys named by no processed column untouched. -/
theorem validateRow_lookup_ne (cols : List Column) (row : Row) (k : String)
    (h : ∀ c ∈ cols, c.name ≠ k) :
    lookupA (validateRow row cols).1 k = lookupA row k := by
  induction cols generalizing row with
  | nil => rfl
  | cons c cs ih =>
    have hc : k ≠ c.name := fun hh => (h c (List.mem_cons_self c cs)) hh.symm
    simp only [validateRow]
    rw [ih ((validateCol row c).1) (fun c' hc' => h c' (List.mem_cons_of_mem c hc'))]
    exact validateCol_lookup_ne row c k hc

/-- The value `validateRow` leaves under the name of column `c` when no other
column of the schema shares that name. -/
theorem validateRow_field_fst (pre : List Column) (c : Column) (post : List Column)
    (row : Row)
    (hpre : ∀ c' ∈ pre, c'.name ≠ c.name) (hpost : ∀ c' ∈ post, c'.name ≠ c.name) :
    lookupA (validateRow row (pre ++ c :: post)).1 c.name =
      coerceField (lookupA row c.name) c := by
  induction pre generalizing row with
  | nil =>
    simp only [List.nil_append, validateRow]
    rw [validateRow_lookup_ne post ((validateCol row c).1) c.name hpost]
    exact validateCol_lookup_self row c
  | cons p ps ih =>
    simp only [List.cons_append, validateRow]
    have h1 := ih ((validateCol row p).1) (fun c' h => hpre c' (List.mem_cons_of_mem p h))
    rw [validateCol_lookup_ne row p c.name
      (fun hh => (hpre p (List.mem_cons_self p ps)) hh.symm)] at h1
    exact h1

/-- The column record `validateRow` emits for column `c` when no earlier
column shares its name. -/
theorem validateRow_field_snd (pre : List Column) (c : Column) (post : List Column)
    (row : Row) (hpre : ∀ c' ∈ pre, c'.name ≠ c.name) :
    coerceColumn (lookupA row c.name) c ∈ (validateRow row (pre ++ c :: post)).2 := by
  induction pre generalizing row with
  | nil =>
    simp only [List.nil_append, validateRow]
    rw [← validateCol_snd row c]
    exact List.mem_cons_self _ _
  | cons p ps ih =>
    simp only [List.cons_append, validateRow]
    refine List.mem_cons_of_mem _ ?_
    have heq := validateCol_lookup_ne row p c.name
      (fun hh => (hpre p (List.mem_cons_self p ps)) hh.symm)
    rw [← heq]
    exact ih ((validateCol row p).1) (fun c' h => hpre c' (List.mem_cons_of_mem p h))

/-- `validateRow` preserves a present, non-empty-string value at key `k`
provided no column named `k` has type `number`. -/
theorem validateRow_preserve_some (cols : List Column) (row : Row) (k : String)
    (v : Value) (ht : ∀ c ∈ cols, c.name = k → c.type ≠ ColType.number)
    (hv : lookupA row k = some v) (hvs : v ≠ Value.str "") :
    lookupA (validateRow row cols).1 k = some v := by
  induction cols generalizing row with
  | nil => exact hv
  | cons c cs ih
  => simp only [validateRow]
     refine ih ((validateCol row c).1) (fun c' h hn => ht c' (List.mem_cons_of_mem c h) hn) ?_
     by_cases hck : c.name = k
     · subst hck
       rw [validateCol_lookup_self row c, hv]
       exact coerceField_keep c v hvs (ht c (List.mem_cons_self c cs) rfl)
     · rw [validateCol_lookup_ne row c k (fun hh => hck hh.symm)]
       exact hv

/-- `validateRow` preserves the absence of key `k` provided no column named
`k` is required-and-not-generated. -/
theorem validateRow_preserve_none (cols : List Column) (row : Row) (k : String)
    (hg : ∀ c ∈ cols, c.name = k → (c.required && !c.generated) = false)
    (hv : lookupA row k = none) :
    lookupA (validateRow row cols).1 k = none := by
  induction cols generalizing row with
  | nil => exact hv
  | cons c cs ih
  => simp only [validateRow]
     refine ih ((validateCol row c).1) (fun c' h hn => hg c' (List.mem_cons_of_mem c h) hn) ?_
     by_cases hck : c.name = k
     · subst hck
       rw [validateCol_lookup_self row c, hv]
       exact coerceField_none c (hg c (List.mem_cons_self c cs) rfl)
     · rw [validateCol_lookup_ne row c k (fun hh => hck hh.symm)]
       exact hv

/-- Every column emitted by `validateRow` agrees with some input column on
everything but `options`. -/
theorem validateRow_snd_mem (cols : List Column) (row : Row) :
    ∀ c' ∈ (validateRow row cols).2, ∃ c ∈ cols,
      c'.name = c.name ∧ c'.type = c.type ∧ c'.required = c.required ∧
      c'.generated = c.generated := by
  induction cols generalizing row with
  | nil => intro c' h; exact absurd h (List.not_mem_nil c')
  | cons c cs ih =>
    intro c' h
    simp only [validateRow, List.mem_cons] at h
    rcases h with h | h
    · refine ⟨c, List.mem_cons_self c cs, ?_⟩
      rw [h, validateCol_snd row c]
      exact coerceColumn_fields (lookupA row c.name) c
    · obtain ⟨c₀, hc₀, hfields⟩ := ih ((validateCol row c).1) c' h
      exact ⟨c₀, List.mem_cons_of_mem c hc₀, hfields⟩

namespace DataStore

/-- `findIdxA` really finds: the index is in range and the row there satisfies
the predicate. -/
theorem findIdxA_spec (p : Row → Bool) :
    ∀ (l : List Row) (i : Nat), findIdxA p l = some i →
      i < l.length ∧ p (l.getD i []) = true := by
  intro l
  induction l with
  | nil => intro i h; simp [findIdxA] at h
  | cons r rs ih =>
    intro i h
    by_cases hp : p r = true
    · simp only [findIdxA, if_pos hp, Option.some.injEq] at h
      subst h
      simpa using hp
    · simp only [findIdxA, if_neg hp, Option.map_eq_some'] at h
      obtain ⟨j, hj, hji⟩ := h
      obtain ⟨hlen, hpred⟩ := ih j hj
      subst hji
      constructor
      · simpa using hlen
      · simpa using hpred

/-- Mapping after replacing one element by another with the same image leaves
the mapped list unchanged. -/
theorem map_set_same (f : Row → Option Value) (l : List Row) (i : Nat) (a : Row)
    (h : f a = f (l.getD i [])) : (l.set i a).map f = l.map f := by
  induction l generalizing i with
  | nil => rfl
  | cons r rs ih =>
    cases i with
    | zero =>
      simp only [List.getD_cons_zero] at h
      simp [List.set, h]
    | succ n =>
      simp only [List.getD_cons_succ] at h
      simp [List.set, ih n h]

/-- Distinct draws from the modelled uuid source are distinct strings. -/
theorem freshUuid_inj : Function.Injective freshUuid := by
  intro m n h
  unfold freshUuid at h
  have hl : ('u' :: List.replicate m 'x') = ('u' :: List.replicate n 'x') :=
    congrArg String.data h
  injection hl with h1 h2
  simpa using congrArg List.length h2

/-- A client-visible mutation of an entity's rows (the operations claim C1
ranges over). -/
inductive Op where
  | ins (now : String) (menuId : String) (rowData : Row)
  | upd (now : String) (menuId : String) (rid : Value) (updates : Row)

/-- Apply one operation; a thrown `NotFound`/`RowNotFound` leaves the store
unchanged (both operations fail before mutating anything). -/
def applyOp (st : Store) : Op → Store
  | .ins now menuId rowData =>
    match insert now st menuId rowData with
    | .ok p => p.2
    | .error _ => st
  | .upd now menuId rid updates =>
    match update now st menuId rid updates with
    | .ok p => p.2
    | .error _ => st

/-- Run a sequence of operations. -/
def runOps (st : Store) : List Op → Store
  | [] => st
  | op :: ops => runOps (applyOp st op) ops

/-- The stored `id` field of each row of an entity, in storage order. -/
def rowIds (st : Store) (menuId : String) : List (Option Value) :=
  ((lookupA st.data menuId).getD []).map (fun r => lookupA r "id")

/-- Column lists whose `id` column (if any) is typed `string` — true in
particular of every schema holding the auto-injected generated `id` column. -/
def idTypeOk (cols : List Column) : Prop :=
  ∀ c ∈ cols, c.name = "id" → c.type = ColType.string

/-- Operations that rely on the generated id: inserts carry no caller id. -/
def genOnly : Op → Prop
  | .ins _ _ rowData => lookupA rowData "id" = none
  | .upd _ _ _ _ => True

/-- Invariant behind C1: the entity's schema types `id` as string and the
stored row ids are pairwise-distinct draws from the uuid source, all below
the current counter. -/
def IdInv (menuId : String) (st : Store) : Prop :=
  (∀ schema, lookupA st.schemas menuId = some schema → idTypeOk schema.columns) ∧
  ∃ ks : List Nat,
    rowIds st menuId = ks.map (fun k => some (Value.str (freshUuid k))) ∧
    ks.Nodup ∧ ∀ k ∈ ks, k < st.ctr

/-- A generated id is never the empty string. -/
theorem freshUuid_ne_empty (k : Nat) : freshUuid k ≠ "" := by
  intro h
  have hl : ('u' :: List.replicate k 'x') = ([] : List Char) :=
    congrArg String.data h
  exact List.cons_ne_nil _ _ hl

/-- `getD` after `map`, inside the range. -/
theorem getD_map {α β : Type} (f : α → β) (d : α) (d' : β) :
    ∀ (l : List α) (i : Nat), i < l.length → (l.map f).getD i d' = f (l.getD i d) := by
  intro l
  induction l with
  | nil => intro i h; simp at h
  | cons a l ih =>
    intro i h
    cases i with
    | zero => simp
    | succ n => simpa using ih n (by simpa using h)

/-- A successful insert pins down the branch taken. -/
theorem insert_ok_elim (now : String) (st : Store) (menuId : String)
    (rowData : Row) (p : Row × Store) (h : insert now st menuId rowData = .ok p) :
    ∃ schema, lookupA st.schemas menuId = some schema ∧
      hasA st.data menuId = true ∧ p = insertResult now st menuId rowData schema := by
  unfold insert at h
  cases hd : hasA st.data menuId with
  | false => rw [hd] at h; simp at h
  | true =>
    rw [hd] at h
    cases hs : lookupA st.schemas menuId with
    | none => rw [hs] at h; simp at h
    | some schema =>
      rw [hs] at h
      simp only [Except.ok.injEq, reduceIte, Bool.true_eq_false] at h
      exact ⟨schema, rfl, rfl, h.symm⟩

/-- A successful update pins down the branch taken. -/
theorem update_ok_elim (now : String) (st : Store) (menuId : String) (rid : Value)
    (updates : Row) (p : Row × Store) (h : update now st menuId rid updates = .ok p) :
    ∃ index schema, hasA st.data menuId = true ∧
      findIdxA (fun r => lookupA r "id" == some rid)
        ((lookupA st.data menuId).getD []) = some index ∧
      lookupA st.schemas menuId = some schema ∧
      p = updateResult now st menuId updates schema index := by
  unfold update at h
  cases hd : hasA st.data menuId with
  | false => rw [hd] at h; simp at h
  | true =>
    rw [hd] at h
    cases hidx : findIdxA (fun r => lookupA r "id" == some rid)
        ((lookupA st.data menuId).getD []) with
    | none => rw [hidx] at h; simp at h
    | some index =>
      rw [hidx] at h
      cases hs : lookupA st.schemas menuId with
      | none => rw [hs] at h; simp at h
      | some schema =>
        rw [hs] at h
        simp only [Except.ok.injEq, reduceIte, Bool.true_eq_false] at h
        exact ⟨index, schema, rfl, rfl, rfl, h.symm⟩

/-- The stamped row of an insert carries the computed id. -/
theorem stampedRow_id (now : String) (st : Store) (rowData : Row) :
    lookupA (stampedRow now st rowData) "id" = some (insIdVal st rowData) := by
  unfold stampedRow
  rw [lookupA_setA_ne _ _ _ _ (by decide), lookupA_setA_ne _ _ _ _ (by decide)]
  exact lookupA_setA_self _ _ _

/-- The row stored by an insert keeps the computed id, provided the schema
types `id` as string and the id is not the empty string. -/
theorem insertResult_row_id (now : String) (st : Store) (menuId : String)
    (rowData : Row) (schema : MenuData) (hids : idTypeOk schema.columns)
    (hvs : insIdVal st rowData ≠ Value.str "") :
    lookupA (insertResult now st menuId rowData schema).1 "id" =
      some (insIdVal st rowData) := by
  unfold insertResult
  refine validateRow_preserve_some _ _ _ _ ?_ (stampedRow_id now st rowData) hvs
  intro c hc hn
  rw [hids c hc hn]
  decide

/-- The merged row of an update carries the pre-update id. -/
theorem mergedRow_id (now : String) (old updates : Row) (rid : Value)
    (ho : lookupA old "id" = some rid) :
    lookupA (mergedRow now old updates) "id" = some rid := by
  unfold mergedRow restoreKey
  rw [lookupA_setA_ne _ _ _ _ (by decide)]
  cases hca : lookupA old "createdAt" with
  | none =>
    rw [lookupA_eraseA_ne _ _ _ (by decide)]
    rw [ho]
    exact lookupA_setA_self _ _ _
  | some v =>
    rw [lookupA_setA_ne _ _ _ _ (by decide)]
    rw [ho]
    exact lookupA_setA_self _ _ _

/-- `validateRow` preserves `idTypeOk` (it can only touch `options`). -/
theorem idTypeOk_validateRow (cols : List Column) (row : Row)
    (h : idTypeOk cols) : idTypeOk (validateRow row cols).2 := by
  intro c' hc' hname
  obtain ⟨c, hcmem, hn, ht, -, -⟩ := validateRow_snd_mem cols row c' hc'
  rw [ht]
  exact h c hcmem (by rw [← hn]; exact hname)

/-- The row a successful update targets carries exactly the id searched for. -/
theorem update_target_id (st : Store) (menuId : String) (rid : Value) (index : Nat)
    (hidx : findIdxA (fun r => lookupA r "id" == some rid)
      ((lookupA st.data menuId).getD []) = some index) :
    lookupA (((lookupA st.data menuId).getD []).getD index []) "id" = some rid := by
  have hspec := findIdxA_spec _ _ _ hidx
  simpa [beq_iff_eq] using hspec.2

/-- Under `IdInv`, the id a successful update matched on is one of the
generated uuid strings. -/
theorem IdInv_target (menuId : String) (st : Store) (rid : Value) (index : Nat)
    (hinv : IdInv menuId st)
    (hidx : findIdxA (fun r => lookupA r "id" == some rid)
      ((lookupA st.data menuId).getD []) = some index) :
    ∃ k, rid = Value.str (freshUuid k) := by
  obtain ⟨-, ks, hmap, -, -⟩ := hinv
  have hspec := findIdxA_spec _ _ _ hidx
  have hlen : ((lookupA st.data menuId).getD []).length = ks.length := by
    have h1 := congrArg List.length hmap
    simpa [rowIds] using h1
  have h2 : (rowIds st menuId).getD index none =
      lookupA (((lookupA st.data menuId).getD []).getD index []) "id" := by
    unfold rowIds
    exact getD_map (fun r => lookupA r "id") [] none _ index hspec.1
  have h3 : (rowIds st menuId).getD index none =
      some (Value.str (freshUuid (ks.getD index 0))) := by
    rw [hmap]
    exact getD_map _ 0 none ks index (by rw [← hlen]; exact hspec.1)
  refine ⟨ks.getD index 0, ?_⟩
  have h4 := update_target_id st menuId rid index hidx
  rw [h2, h4] at h3
  injection h3

/-- A successful update leaves every stored id of the entity unchanged (and
draws no uuid). -/
theorem update_rowIds_eq (now : String) (st : Store) (menuId : String)
    (rid : Value) (updates : Row) (p : Row × Store) (hinv : IdInv menuId st)
    (h : update now st menuId rid updates = .ok p) :
    rowIds p.2 menuId = rowIds st menuId ∧ p.2.ctr = st.ctr := by
  obtain ⟨index, schema, hd, hidx, hs, hp⟩ := update_ok_elim now st menuId rid updates p h
  subst hp
  obtain ⟨k0, hk0⟩ := IdInv_target menuId st rid index hinv hidx
  have ho := update_target_id st menuId rid index hidx
  refine ⟨?_, rfl⟩
  have hdata : (updateResult now st menuId updates schema index).2.data =
      setA st.data menuId (((lookupA st.data menuId).getD []).set index
        (updateResult now st menuId updates schema index).1) := rfl
  unfold rowIds
  rw [hdata, lookupA_setA_self]
  simp only [Option.getD_some]
  apply map_set_same
  have hrow : (updateResult now st menuId updates schema index).1 =
      (validateRow (mergedRow now (((lookupA st.data menuId).getD []).getD index [])
        updates) schema.columns).1 := rfl
  rw [hrow, ho]
  refine validateRow_preserve_some _ _ _ _ ?_ (mergedRow_id _ _ _ _ ho) ?_
  · intro c hc hn
    rw [hinv.1 schema hs c hc hn]
    decide
  · rw [hk0]
    intro hcon
    injection hcon with hcon
    exact freshUuid_ne_empty _ hcon

/-- A genOnly insert preserves `IdInv` of any entity. -/
theorem insert_IdInv (mid now menuId : String) (st : Store) (rowData : Row)
    (hinv : IdInv mid st) (hraw : lookupA rowData "id" = none) :
    IdInv mid (applyOp st (.ins now menuId rowData)) := by
  cases h : insert now st menuId rowData with
  | error e =>
    dsimp only [applyOp]
    rw [h]
    exact hinv
  | ok p =>
    dsimp only [applyOp]
    rw [h]
    obtain ⟨schema, hs, hd, hp⟩ := insert_ok_elim now st menuId rowData p h
    subst hp
    obtain ⟨hschInv, ks, hmap, hnodup, hbound⟩ := hinv
    have hctr : (insertResult now st menuId rowData schema).2.ctr = st.ctr + 1 := by
      simp [insertResult, insCtr, hraw]
    have hid : insIdVal st rowData = Value.str (freshUuid st.ctr) := by
      simp [insIdVal, hraw]
    constructor
    · intro schema' hlook
      by_cases hmm : menuId = mid
      · subst hmm
        have hsch : (insertResult now st menuId rowData schema).2.schemas =
            setA st.schemas menuId { schema with
              columns := (validateRow (stampedRow now st rowData) schema.columns).2 } := rfl
        rw [hsch, lookupA_setA_self] at hlook
        injection hlook with hlook
        subst hlook
        exact idTypeOk_validateRow _ _ (hschInv schema hs)
      · have hsch : lookupA (insertResult now st menuId rowData schema).2.schemas mid =
            lookupA st.schemas mid := by
          have : (insertResult now st menuId rowData schema).2.schemas =
              setA st.schemas menuId { schema with
                columns := (validateRow (stampedRow now st rowData) schema.columns).2 } := rfl
          rw [this]
          exact lookupA_setA_ne _ _ _ _ (fun hh => hmm hh.symm)
        rw [hsch] at hlook
        exact hschInv schema' hlook
    · have hdata : (insertResult now st menuId rowData schema).2.data =
          setA st.data menuId (((lookupA st.data menuId).getD []) ++
            [(insertResult now st menuId rowData schema).1]) := rfl
      by_cases hmm : menuId = mid
      · subst hmm
        refine ⟨ks ++ [st.ctr], ?_, ?_, ?_⟩
        · have hrowid : lookupA (insertResult now st menuId rowData schema).1 "id" =
              some (Value.str (freshUuid st.ctr)) := by
            rw [insertResult_row_id now st menuId rowData schema (hschInv schema hs)
              (by rw [hid]; intro hcon; injection hcon with hcon;
                  exact freshUuid_ne_empty _ hcon)]
            rw [hid]
          unfold rowIds at hmap ⊢
          rw [hdata, lookupA_setA_self]
          simp only [Option.getD_some, List.map_append, List.map_cons, List.map_nil]
          rw [hmap, hrowid]
        · rw [List.nodup_append]
          refine ⟨hnodup, List.nodup_singleton _, ?_⟩
          intro a ha hb
          rw [List.mem_singleton] at hb
          subst hb
          exact absurd (hbound _ ha) (lt_irrefl _)
        · intro k hk
          rw [hctr]
          rcases List.mem_append.mp hk with hk | hk
          · exact Nat.lt_succ_of_lt (hbound k hk)
          · rw [List.mem_singleton] at hk
            subst hk
            exact Nat.lt_succ_self _
      · refine ⟨ks, ?_, hnodup, ?_⟩
        · unfold rowIds at hmap ⊢
          rw [hdata, lookupA_setA_ne _ _ _ _ (fun hh => hmm hh.symm)]
          exact hmap
        · intro k hk
          rw [hctr]
          exact Nat.lt_succ_of_lt (hbound k hk)

/-- Any update preserves `IdInv` of any entity. -/
theorem update_IdInv (mid now menuId : String) (st : Store) (rid : Value)
    (updates : Row) (hinv : IdInv mid st) :
    IdInv mid (applyOp st (.upd now menuId rid updates)) := by
  cases h : update now st menuId rid updates with
  | error e =>
    dsimp only [applyOp]
    rw [h]
    exact hinv
  | ok p =>
    dsimp only [applyOp]
    rw [h]
    obtain ⟨index, schema, hd, hidx, hs, hp⟩ := update_ok_elim now st menuId rid updates p h
    by_cases hmm : menuId = mid
    · subst hmm
      obtain ⟨hids, hctr⟩ := update_rowIds_eq now st menuId rid updates p hinv h
      subst hp
      constructor
      · intro schema' hlook
        have hsch : (updateResult now st menuId updates schema index).2.schemas =
            setA st.schemas menuId { schema with
              columns := (validateRow (mergedRow now
                (((lookupA st.data menuId).getD []).getD index []) updates)
                schema.columns).2 } := rfl
        rw [hsch, lookupA_setA_self] at hlook
        injection hlook with hlook
        subst hlook
        exact idTypeOk_validateRow _ _ (hinv.1 schema hs)
      · obtain ⟨ks, hmap, hnodup, hbound⟩ := hinv.2
        refine ⟨ks, ?_, hnodup, ?_⟩
        · rw [hids]
          exact hmap
        · intro k hk
          rw [hctr]
          exact hbound k hk
    · subst hp
      constructor
      · intro schema' hlook
        have hsch : (updateResult now st menuId updates schema index).2.schemas =
            setA st.schemas menuId { schema with
              columns := (validateRow (mergedRow now
                (((lookupA st.data menuId).getD []).getD index []) updates)
                schema.columns).2 } := rfl
        rw [hsch, lookupA_setA_ne _ _ _ _ (fun hh => hmm hh.symm)] at hlook
        exact hinv.1 schema' hlook
      · obtain ⟨ks, hmap, hnodup, hbound⟩ := hinv.2
        refine ⟨ks, ?_, hnodup, fun k hk => hbound k hk⟩
        have hdata : (updateResult now st menuId updates schema index).2.data =
            setA st.data menuId (((lookupA st.data menuId).getD []).set index
              (updateResult now st menuId updates schema index).1) := rfl
        unfold rowIds at hmap ⊢
        rw [hdata, lookupA_setA_ne _ _ _ _ (fun hh => hmm hh.symm)]
        exact hmap

/-- Running any genOnly trace preserves `IdInv`. -/
theorem runOps_IdInv (mid : String) (ops : List Op) (st : Store)
    (hinv : IdInv mid st) (hops : ∀ op ∈ ops, genOnly op) :
    IdInv mid (runOps st ops) := by
  induction ops generalizing st with
  | nil => exact hinv
  | cons op ops ih =>
    refine ih (applyOp st op) ?_ (fun o ho => hops o (List.mem_cons_of_mem op ho))
    cases op with
    | ins now menuId rowData =>
      exact insert_IdInv mid now menuId st rowData hinv
        (hops _ (List.mem_cons_self _ _))
    | upd now menuId rid updates =>
      exact update_IdInv mid now menuId st rid updates hinv

/-- A freshly created menu satisfies `IdInv` (empty rows, caller's columns),
provided the draft's columns type `id` as string. -/
theorem createMenu_IdInv (now : String) (st : Store) (draft : MenuData)
    (hids : idTypeOk draft.columns) :
    IdInv (createMenu now st draft).1.id (createMenu now st draft).2 := by
  constructor
  · intro schema hlook
    have hsch : lookupA (createMenu now st draft).2.schemas
        (createMenu now st draft).1.id = some draft := by
      simp only [createMenu]
      exact lookupA_setA_self _ _ _
    rw [hsch] at hlook
    injection hlook with hh
    subst hh
    exact hids
  · refine ⟨[], ?_, List.nodup_nil, by simp⟩
    unfold rowIds
    have hdat : lookupA (createMenu now st draft).2.data
        (createMenu now st draft).1.id = some [] := by
      simp only [createMenu]
      exact lookupA_setA_self _ _ _
    rw [hdat]
    rfl

/-- Under `IdInv` the stored ids are pairwise distinct. -/
theorem IdInv_nodup (mid : String) (st : Store) (hinv : IdInv mid st) :
    (rowIds st mid).Nodup := by
  obtain ⟨-, ks, hmap, hnodup, -⟩ := hinv
  rw [hmap]
  have hg : Function.Injective (fun k => some (Value.str (freshUuid k))) := by
    intro a b hab
    simp only [Option.some.injEq, Value.str.injEq] at hab
    exact freshUuid_inj hab
  exact hnodup.map hg

end DataStore

/-- A target column whose name substring-matches the label `name`. -/
def userNameCol : Column := ⟨"user_name", .string, "User Name", false, false, false, none⟩

/-- A target column exactly named `name`. -/
def nameCol : Column := ⟨"name", .string, "Name", false, false, false, none⟩

/-- A two-target schema on which the rule priority question is decided. -/
def reconTargets : List Column := [userNameCol, nameCol]

theorem tryRules_exact (sl : String) (t : Column)
    (h : sl = jsToLower t.name ∨ sl = jsToLower t.label) :
    tryRules sl t = some 1 := by
  rcases h with h | h <;> simp [tryRules, h]

theorem firstTargetMatch_cons_none (sl : String) (p : Column) (ts : List Column)
    (h : tryRules sl p = none) :
    firstTargetMatch sl (p :: ts) = firstTargetMatch sl ts := by
  simp [firstTargetMatch, h]

theorem firstTargetMatch_cons_some (sl : String) (t : Column) (ts : List Column)
    (q : ℚ) (h : tryRules sl t = some q) :
    firstTargetMatch sl (t :: ts) = some (t.name, q) := by
  simp [firstTargetMatch, h]

theorem ruleBasedMatching_cons (s : String) (ss : List String)
    (targets : List Column) :
    ruleBasedMatching (s :: ss) targets =
      (match firstTargetMatch (jsTrim (jsToLower s)) targets with
       | some p => [(⟨s, p.1, p.2⟩ : ColMatch)]
       | none => []) ++ ruleBasedMatching ss targets := by
  unfold ruleBasedMatching
  rw [List.filterMap_cons]
  cases h : firstTargetMatch (jsTrim (jsToLower s)) targets <;> simp [h]

theorem ruleBasedMatching_first_exact (source : String) (pre : List Column)
    (t : Column) (post : List Column)
    (hpre : ∀ t' ∈ pre, tryRules (jsTrim (jsToLower source)) t' = none)
    (hex : jsTrim (jsToLower source) = jsToLower t.name ∨
      jsTrim (jsToLower source) = jsToLower t.label) :
    ruleBasedMatching [source] (pre ++ t :: post) = [⟨source, t.name, 1⟩] := by
  have h1 : tryRules (jsTrim (jsToLower source)) t = some 1 := tryRules_exact _ t hex
  have hfirst : firstTargetMatch (jsTrim (jsToLower source)) (pre ++ t :: post) =
      some (t.name, 1) := by
    induction pre with
    | nil => exact firstTargetMatch_cons_some _ _ _ _ h1
    | cons p ps ih =>
      rw [List.cons_append,
        firstTargetMatch_cons_none _ _ _ (hpre p (List.mem_cons_self p ps))]
      exact ih (fun t' ht' => hpre t' (List.mem_cons_of_mem p ht'))
  simp [ruleBasedMatching, hfirst]

/-- C3 counterexample: the source label `"name"` exactly equals the second
target's field name, yet the rule pass matches it to the earlier-listed
`user_name` target by the lowest-priority substring rule, at confidence 0.8 —
the claimed global rule-priority order does not hold. -/
theorem C3_counterexample :
    ruleBasedMatching ["name"] reconTargets = [⟨"name", "user_name", 8/10⟩] ∧
    jsTrim (jsToLower "name") = jsToLower nameCol.name ∧
    (8/10 : ℚ) ≠ 1 :=
  ⟨rfl, rfl, by norm_num⟩

/-- C3 (amended): the three rules are prioritised per target, not globally:
for each source label the targets are scanned in list order and the first
target related by any rule wins; within one target, exact name/label equality
(1.0) is tried before synonym (0.9) before substring (0.8).  Hence a label
that exactly equals some target's name or label is matched to it at 1.0 only
when no earlier-listed target is rule-related to the label; and each source
label is resolved independently. -/
theorem C3_theorem :
    (∀ sl t, (sl = jsToLower t.name ∨ sl = jsToLower t.label) →
      tryRules sl t = some 1) ∧
    (∀ source pre t post,
      (∀ t' ∈ pre, tryRules (jsTrim (jsToLower source)) t' = none) →
      (jsTrim (jsToLower source) = jsToLower t.name ∨
        jsTrim (jsToLower source) = jsToLower t.label) →
      ruleBasedMatching [source] (pre ++ t :: post) = [⟨source, t.name, 1⟩]) ∧
    (∀ s ss targets, ruleBasedMatching (s :: ss) targets =
      (match firstTargetMatch (jsTrim (jsToLower s)) targets with
       | some p => [(⟨s, p.1, p.2⟩ : ColMatch)]
       | none => []) ++ ruleBasedMatching ss targets) :=
  ⟨tryRules_exact, ruleBasedMatching_first_exact, ruleBasedMatching_cons⟩

/-- C3 witness: the label `email` exactly equals the single target's name and
with no earlier targets it is matched at confidence 1.0. -/
theorem C3_witness :
    ruleBasedMatching ["email"]
      ([] ++ (⟨"email", .email, "이메일", false, false, false, none⟩ : Column) :: []) =
      [⟨"email", "email", 1⟩] :=
  C3_theorem.2.1 "email" [] _ []
    (fun t' ht' => absurd ht' (List.not_mem_nil t')) (Or.inl rfl)

/-- C7 counterexample: every source label obtains a rule-pass match (so the
Oracle is indeed not invoked), but the claim's parenthetical fails: `"name"`
exactly equals the target field name `name` and is nevertheless returned at
confidence 0.8, matched to `user_name`. -/
theorem C7_counterexample :
    matchColumns (fun _ _ => .ok []) ["name"] reconTargets =
      [⟨"name", "user_name", 8/10⟩] ∧
    jsTrim (jsToLower "name") = jsToLower nameCol.name ∧
    (8/10 : ℚ) ≠ 1 :=
  ⟨rfl, rfl, by norm_num⟩

theorem matchColumns_all_matched (sourceColumns : List String)
    (cols : List Column) (h : unmatchedOf sourceColumns cols = [])
    (oracle : List String → List (String × String) → Except String (List ColMatch)) :
    matchColumns oracle sourceColumns cols = ruleBasedMatching sourceColumns cols := by
  unfold matchColumns
  rw [h]
  rfl

theorem matchColumns_oracle_scope (sourceColumns : List String) (cols : List Column)
    (o₁ o₂ : List String → List (String × String) → Except String (List ColMatch))
    (h : o₁ (unmatchedOf sourceColumns cols) (cols.map (fun c => (c.name, c.label))) =
      o₂ (unmatchedOf sourceColumns cols) (cols.map (fun c => (c.name, c.label)))) :
    matchColumns o₁ sourceColumns cols = matchColumns o₂ sourceColumns cols := by
  simp only [matchColumns]
  rw [h]

theorem matchColumns_oracle_ok (sourceColumns : List String) (cols : List Column)
    (oracle : List String → List (String × String) → Except String (List ColMatch))
    (result : List ColMatch)
    (h : oracle (unmatchedOf sourceColumns cols)
      (cols.map (fun c => (c.name, c.label))) = .ok result)
    (hne : unmatchedOf sourceColumns cols ≠ []) :
    matchColumns oracle sourceColumns cols =
      ruleBasedMatching sourceColumns cols ++ result := by
  simp only [matchColumns]
  rw [h]
  simp [List.isEmpty_iff, hne]

/-- C7 (amended): when every source label obtains a rule-pass match the Oracle
is not invoked (the result is oracle-independent and equals the rule matches);
otherwise the Oracle is consulted with exactly the rule-unmatched labels (and
the target name/label list) — the result depends on the Oracle only through
that one invocation, whose successful matches are appended to the rule
matches.  The claim's parenthetical is amended: a label that exactly equals a
target field name is matched at confidence 1.0 only when no earlier-listed
target is rule-related to it. -/
theorem C7_theorem :
    (∀ sourceColumns cols oracle, unmatchedOf sourceColumns cols = [] →
      matchColumns oracle sourceColumns cols =
        ruleBasedMatching sourceColumns cols) ∧
    (∀ sourceColumns cols o₁ o₂,
      o₁ (unmatchedOf sourceColumns cols) (cols.map (fun c => (c.name, c.label))) =
        o₂ (unmatchedOf sourceColumns cols) (cols.map (fun c => (c.name, c.label))) →
      matchColumns o₁ sourceColumns cols = matchColumns o₂ sourceColumns cols) ∧
    (∀ sourceColumns cols oracle result,
      oracle (unmatchedOf sourceColumns cols)
        (cols.map (fun c => (c.name, c.label))) = .ok result →
      unmatchedOf sourceColumns cols ≠ [] →
      matchColumns oracle sourceColumns cols =
        ruleBasedMatching sourceColumns cols ++ result) :=
  ⟨fun s c o h => matchColumns_all_matched s c h o, matchColumns_oracle_scope,
    matchColumns_oracle_ok⟩

/-- C7 witness: with both labels rule-matched, the result equals the rule
matches for an arbitrary concrete oracle. -/
theorem C7_witness :
    matchColumns (fun _ _ => .ok [⟨"ghost", "name", 9/10⟩]) ["name", "user name"]
      reconTargets = ruleBasedMatching ["name", "user name"] reconTargets :=
  C7_theorem.1 ["name", "user name"] reconTargets (fun _ _ => .ok [⟨"ghost", "name", 9/10⟩]) rfl

/-- C8: if the AI Oracle call fails, `matchColumns` returns exactly the
rule-pass matches and never propagates the failure. -/
theorem C8_theorem :
    ∀ sourceColumns cols oracle e,
      oracle (unmatchedOf sourceColumns cols)
        (cols.map (fun c => (c.name, c.label))) = .error e →
      matchColumns oracle sourceColumns cols =
        ruleBasedMatching sourceColumns cols := by
  intro sourceColumns cols oracle e h
  simp only [matchColumns]
  rw [h]
  cases hu : (unmatchedOf sourceColumns cols).isEmpty <;> simp [hu]

/-- C8 witness: a failing oracle on an unmatched label degrades to the
rule-pass matches. -/
theorem C8_witness :
    matchColumns (fun _ _ => .error "boom") ["zzz", "name"] reconTargets =
      ruleBasedMatching ["zzz", "name"] reconTargets :=
  C8_theorem ["zzz", "name"] reconTargets (fun _ _ => .error "boom") "boom" rfl

theorem bulkInsert_length (now : String) (menuId : String) :
    ∀ (raws : List Row) (st : Store),
      (DataStore.bulkInsert now st menuId raws).1.success.length +
        (DataStore.bulkInsert now st menuId raws).1.failed.length = raws.length := by
  intro raws
  induction raws with
  | nil => intro st; rfl
  | cons r rs ih =>
    intro st
    cases h : DataStore.insert now st menuId r with
    | ok p =>
      have hr := ih p.2
      simp only [DataStore.bulkInsert, h, List.length_cons]
      omega
    | error msg =>
      have hr := ih st
      simp only [DataStore.bulkInsert, h, List.length_cons]
      omega

theorem bulkInsert_fail_cons (now : String) (st : Store) (menuId : String)
    (r : Row) (rs : List Row) (msg : String)
    (h : DataStore.insert now st menuId r = .error msg) :
    DataStore.bulkInsert now st menuId (r :: rs) =
      (⟨(DataStore.bulkInsert now st menuId rs).1.success,
        ⟨r, msg⟩ :: (DataStore.bulkInsert now st menuId rs).1.failed⟩,
        (DataStore.bulkInsert now st menuId rs).2) := by
  simp only [DataStore.bulkInsert, h]

theorem bulkInsert_ok_cons (now : String) (st : Store) (menuId : String)
    (r : Row) (rs : List Row) (p : Row × Store)
    (h : DataStore.insert now st menuId r = .ok p) :
    DataStore.bulkInsert now st menuId (r :: rs) =
      (⟨p.1 :: (DataStore.bulkInsert now p.2 menuId rs).1.success,
        (DataStore.bulkInsert now p.2 menuId rs).1.failed⟩,
        (DataStore.bulkInsert now p.2 menuId rs).2) := by
  simp only [DataStore.bulkInsert, h]

/-- C5: `bulkInsert` attempts each row independently in order and never raises
for the batch: the success and failed lists' lengths sum to the batch size;
a failing head row contributes `{input, message}` to the failed list and the
remaining rows proceed from the unchanged store; a succeeding head row is
appended to the success list and the remaining rows proceed from the updated
store. -/
theorem C5_theorem :
    (∀ now menuId raws st,
      (DataStore.bulkInsert now st menuId raws).1.success.length +
        (DataStore.bulkInsert now st menuId raws).1.failed.length = raws.length) ∧
    (∀ now st menuId r rs msg, DataStore.insert now st menuId r = .error msg →
      DataStore.bulkInsert now st menuId (r :: rs) =
        (⟨(DataStore.bulkInsert now st menuId rs).1.success,
          ⟨r, msg⟩ :: (DataStore.bulkInsert now st menuId rs).1.failed⟩,
          (DataStore.bulkInsert now st menuId rs).2)) ∧
    (∀ now st menuId r rs p, DataStore.insert now st menuId r = .ok p →
      DataStore.bulkInsert now st menuId (r :: rs) =
        (⟨p.1 :: (DataStore.bulkInsert now p.2 menuId rs).1.success,
          (DataStore.bulkInsert now p.2 menuId rs).1.failed⟩,
          (DataStore.bulkInsert now p.2 menuId rs).2)) :=
  ⟨fun now menuId raws st => bulkInsert_length now menuId raws st,
    bulkInsert_fail_cons, bulkInsert_ok_cons⟩

/-- C5 witness: a batch against a missing menu yields one failed entry with
the offending input and the error message, and no exception. -/
theorem C5_witness :
    DataStore.bulkInsert "T1" Store.empty "m" [[("a", Value.num 1)]] =
      (⟨[], [⟨[("a", Value.num 1)], "Menu not found: m"⟩]⟩, Store.empty) :=
  (C5_theorem.2.1 "T1" Store.empty "m" [("a", Value.num 1)] [] "Menu not found: m"
    rfl).trans rfl

theorem insert_ok_of_found (now : String) (st : Store) (menuId : String)
    (rowData : Row) (schema : MenuData)
    (hs : lookupA st.schemas menuId = some schema)
    (hd : hasA st.data menuId = true) :
    DataStore.insert now st menuId rowData =
      .ok (DataStore.insertResult now st menuId rowData schema) := by
  unfold DataStore.insert
  rw [hd, hs]
  rfl

theorem insert_menu_not_found (now : String) (st : Store) (menuId : String)
    (rowData : Row) (hd : hasA st.data menuId = false) :
    DataStore.insert now st menuId rowData =
      .error ("Menu not found: " ++ menuId) := by
  unfold DataStore.insert
  rw [hd]
  rfl

theorem update_ok_of_found (now : String) (st : Store) (menuId : String)
    (rid : Value) (updates : Row) (schema : MenuData) (index : Nat)
    (hs : lookupA st.schemas menuId = some schema)
    (hd : hasA st.data menuId = true)
    (hidx : DataStore.findIdxA (fun r => lookupA r "id" == some rid)
      ((lookupA st.data menuId).getD []) = some index) :
    DataStore.update now st menuId rid updates =
      .ok (DataStore.updateResult now st menuId updates schema index) := by
  unfold DataStore.update
  rw [hd, hidx, hs]
  rfl

theorem update_menu_not_found (now : String) (st : Store) (menuId : String)
    (rid : Value) (updates : Row) (hd : hasA st.data menuId = false) :
    DataStore.update now st menuId rid updates =
      .error ("Menu not found: " ++ menuId) := by
  unfold DataStore.update
  rw [hd]
  rfl

theorem update_row_not_found (now : String) (st : Store) (menuId : String)
    (rid : Value) (updates : Row) (hd : hasA st.data menuId = true)
    (hidx : DataStore.findIdxA (fun r => lookupA r "id" == some rid)
      ((lookupA st.data menuId).getD []) = none) :
    DataStore.update now st menuId rid updates = .error "Row not found" := by
  unfold DataStore.update
  rw [hd, hidx]
  rfl

theorem validateRow_required_null (row : Row) (pre : List Column) (c : Column)
    (post : List Column) (hreq : c.required = true) (hgen : c.generated = false)
    (hv : lookupA row c.name = none)
    (hpre : ∀ c' ∈ pre, c'.name ≠ c.name) (hpost : ∀ c' ∈ post, c'.name ≠ c.name) :
    lookupA (validateRow row (pre ++ c :: post)).1 c.name = some Value.null := by
  rw [validateRow_field_fst pre c post row hpre hpost, hv]
  simp [coerceField, hreq, hgen]

theorem validateRow_nan_null (row : Row) (pre : List Column) (c : Column)
    (post : List Column) (v : Value) (hct : c.type = ColType.number)
    (hv : lookupA row c.name = some v) (hnan : jsIsNaN v = true)
    (hpre : ∀ c' ∈ pre, c'.name ≠ c.name) (hpost : ∀ c' ∈ post, c'.name ≠ c.name) :
    lookupA (validateRow row (pre ++ c :: post)).1 c.name = some Value.null := by
  have hvs : v ≠ Value.str "" := by
    intro he
    subst he
    exact absurd hnan (by decide)
  have hvn : v ≠ Value.null := by
    intro he
    subst he
    exact absurd hnan (by decide)
  rw [validateRow_field_fst pre c post row hpre hpost, hv]
  simp [coerceField, if_neg hvs, if_neg hvn, hct, hnan]

theorem validateRow_softwarn_keep (row : Row) (pre : List Column) (c : Column)
    (post : List Column) (v : Value)
    (hct : c.type = ColType.email ∨ c.type = ColType.phone)
    (hv : lookupA row c.name = some v) (hvs : v ≠ Value.str "")
    (hpre : ∀ c' ∈ pre, c'.name ≠ c.name) (hpost : ∀ c' ∈ post, c'.name ≠ c.name) :
    lookupA (validateRow row (pre ++ c :: post)).1 c.name = some v := by
  rw [validateRow_field_fst pre c post row hpre hpost, hv]
  refine coerceField_keep c v hvs ?_
  rcases hct with h | h <;> rw [h] <;> decide

/-- C4: validation is lenient — on an existing entity, insert and update never
fail for row content: insert succeeds whenever the entity exists, and fails
exactly with `Menu not found` otherwise; update succeeds whenever the entity
and the row exist and fails exactly with `Menu not found` / `Row not found`
otherwise.  Per field: a required non-generated field absent from the row is
stored as null; a non-numeric value in a `number` field is reset to null;
values in `email`/`phone` fields are stored unchanged (the regex mismatch
only logs a warning). -/
theorem C4_theorem :
    (∀ now st menuId rowData schema, lookupA st.schemas menuId = some schema →
      hasA st.data menuId = true →
      DataStore.insert now st menuId rowData =
        .ok (DataStore.insertResult now st menuId rowData schema)) ∧
    (∀ now st menuId rowData, hasA st.data menuId = false →
      DataStore.insert now st menuId rowData =
        .error ("Menu not found: " ++ menuId)) ∧
    (∀ now st menuId rid updates schema index,
      lookupA st.schemas menuId = some schema → hasA st.data menuId = true →
      DataStore.findIdxA (fun r => lookupA r "id" == some rid)
        ((lookupA st.data menuId).getD []) = some index →
      DataStore.update now st menuId rid updates =
        .ok (DataStore.updateResult now st menuId updates schema index)) ∧
    (∀ now st menuId rid updates, hasA st.data menuId = false →
      DataStore.update now st menuId rid updates =
        .error ("Menu not found: " ++ menuId)) ∧
    (∀ now st menuId rid updates, hasA st.data menuId = true →
      DataStore.findIdxA (fun r => lookupA r "id" == some rid)
        ((lookupA st.data menuId).getD []) = none →
      DataStore.update now st menuId rid updates = .error "Row not found") ∧
    (∀ row pre c post, c.required = true → c.generated = false →
      lookupA row c.name = none →
      (∀ c' ∈ pre, c'.name ≠ c.name) → (∀ c' ∈ post, c'.name ≠ c.name) →
      lookupA (validateRow row (pre ++ c :: post)).1 c.name = some Value.null) ∧
    (∀ row pre c post v, c.type = ColType.number →
      lookupA row c.name = some v → jsIsNaN v = true →
      (∀ c' ∈ pre, c'.name ≠ c.name) → (∀ c' ∈ post, c'.name ≠ c.name) →
      lookupA (validateRow row (pre ++ c :: post)).1 c.name = some Value.null) ∧
    (∀ row pre c post v, (c.type = ColType.email ∨ c.type = ColType.phone) →
      lookupA row c.name = some v → v ≠ Value.str "" →
      (∀ c' ∈ pre, c'.name ≠ c.name) → (∀ c' ∈ post, c'.name ≠ c.name) →
      lookupA (validateRow row (pre ++ c :: post)).1 c.name = some v) :=
  ⟨insert_ok_of_found, insert_menu_not_found, update_ok_of_found,
    update_menu_not_found, update_row_not_found,
    fun row pre c post hreq hgen hv hpre hpost =>
      validateRow_required_null row pre c post hreq hgen hv hpre hpost,
    fun row pre c post v hct hv hnan hpre hpost =>
      validateRow_nan_null row pre c post v hct hv hnan hpre hpost,
    fun row pre c post v hct hv hvs hpre hpost =>
      validateRow_softwarn_keep row pre c post v hct hv hvs hpre hpost⟩

/-- C4 witness: a row missing a required name, carrying a non-numeric number
and a malformed email is stored with `name` nulled-in, `n` nulled and `e`
kept as-is. -/
theorem C4_witness :
    lookupA (validateRow [("n", Value.str "12abc"), ("e", Value.str "bad-email")]
      ([] ++ (⟨"name", .string, "N", true, false, false, none⟩ : Column) ::
        [⟨"n", .number, "Num", false, false, false, none⟩,
         ⟨"e", .email, "E", false, false, false, none⟩])).1 "name" =
      some Value.null :=
  C4_theorem.2.2.2.2.2.1 [("n", Value.str "12abc"), ("e", Value.str "bad-email")]
    [] ⟨"name", .string, "N", true, false, false, none⟩
    [⟨"n", .number, "Num", false, false, false, none⟩,
     ⟨"e", .email, "E", false, false, false, none⟩]
    rfl rfl rfl (fun c' hc' => absurd hc' (List.not_mem_nil c')) (by decide)

/-- C9: a `select` field carrying an options list, validated against a row
whose (post-coercion, hence non-null and non-empty-string) value is not among
the options, keeps the value in the row and appends it to the field's
options, so the emitted schema column's options list contains the value. -/
theorem C9_theorem :
    ∀ row pre c post opts v,
      c.type = ColType.select → c.options = some opts →
      lookupA row c.name = some v → v ≠ Value.null → v ≠ Value.str "" →
      v ∉ opts →
      (∀ c' ∈ pre, c'.name ≠ c.name) → (∀ c' ∈ post, c'.name ≠ c.name) →
      lookupA (validateRow row (pre ++ c :: post)).1 c.name = some v ∧
      { c with options := some (opts ++ [v]) } ∈
        (validateRow row (pre ++ c :: post)).2 ∧
      v ∈ opts ++ [v] := by
  intro row pre c post opts v hct hopts hv hvn hvs hmem hpre hpost
  have hnum : c.type ≠ ColType.number := by
    rw [hct]
    decide
  refine ⟨?_, ?_, List.mem_append_right _ (List.mem_singleton_self v)⟩
  · rw [validateRow_field_fst pre c post row hpre hpost, hv]
    exact coerceField_keep c v hvs hnum
  · have hcol : coerceColumn (lookupA row c.name) c =
        { c with options := some (opts ++ [v]) } := by
      rw [hv]
      unfold coerceColumn
      rw [coerceField_keep c v hvs hnum]
      simp [hvn, hct, hopts, hmem]
    rw [← hcol]
    exact validateRow_field_snd pre c post row hpre

/-- C9 witness: the unseen option `"b"` is accepted and appended to the
options of the select column `s`. -/
theorem C9_witness :
    lookupA (validateRow [("s", Value.str "b")]
      ([] ++ (⟨"s", .select, "S", false, false, false,
        some [Value.str "a"]⟩ : Column) :: [])).1 "s" = some (Value.str "b") ∧
    ({ name := "s", type := .select, label := "S", required := false,
       readOnly := false, generated := false,
       options := some [Value.str "a", Value.str "b"] } : Column) ∈
      (validateRow [("s", Value.str "b")]
        ([] ++ (⟨"s", .select, "S", false, false, false,
          some [Value.str "a"]⟩ : Column) :: [])).2 := by
  have h := C9_theorem [("s", Value.str "b")] []
    ⟨"s", .select, "S", false, false, false, some [Value.str "a"]⟩ []
    [Value.str "a"] (Value.str "b") rfl rfl rfl (by decide) (by decide) (by decide)
    (fun c' hc' => absurd hc' (List.not_mem_nil c'))
    (fun c' hc' => absurd hc' (List.not_mem_nil c'))
  exact ⟨h.1, h.2.1⟩

/-- C2 counterexample fixture: a draft with an empty column list. -/
def c2Draft : MenuData := ⟨some "m2", "M2", "t2", "d2", []⟩

/-- C2 counterexample: `createMenu` stores the draft verbatim and injects
nothing — the created entity `m2` has an empty column list, with no `id`
column (nor `createdAt`/`updatedAt`). -/
theorem C2_counterexample :
    (DataStore.createMenu "T0" Store.empty c2Draft).1.id = "m2" ∧
    (lookupA (DataStore.createMenu "T0" Store.empty c2Draft).2.schemas "m2").map
      (fun s => s.columns.any (fun c => c.name = "id")) = some false ∧
    (lookupA (DataStore.createMenu "T0" Store.empty c2Draft).2.schemas "m2").map
      (fun s => s.columns.any (fun c => c.name = "createdAt")) = some false :=
  ⟨rfl, rfl, rfl⟩

theorem mem_withCreatedAt (cols : List Column) (c : Column) (h : c ∈ cols) :
    c ∈ withCreatedAt cols := by
  unfold withCreatedAt
  split
  · exact h
  · exact List.mem_append_left _ h

theorem mem_withUpdatedAt (cols : List Column) (c : Column) (h : c ∈ cols) :
    c ∈ withUpdatedAt cols := by
  unfold withUpdatedAt
  split
  · exact h
  · exact List.mem_append_left _ h

theorem withId_has_id (cols : List Column) :
    ∃ c ∈ withId cols, c.name = "id" := by
  by_cases h : cols.any (fun c => c.name = "id") = true
  · rw [withId, if_pos h]
    obtain ⟨c, hc, hn⟩ := List.any_eq_true.mp h
    exact ⟨c, hc, of_decide_eq_true hn⟩
  · rw [withId, if_neg h]
    exact ⟨idColDef, List.mem_cons_self _ _, rfl⟩

theorem withCreatedAt_has (cols : List Column) :
    ∃ c ∈ withCreatedAt cols, c.name = "createdAt" := by
  by_cases h : cols.any (fun c => c.name = "createdAt") = true
  · rw [withCreatedAt, if_pos h]
    obtain ⟨c, hc, hn⟩ := List.any_eq_true.mp h
    exact ⟨c, hc, of_decide_eq_true hn⟩
  · rw [withCreatedAt, if_neg h]
    exact ⟨createdAtColDef, List.mem_append_right _ (List.mem_singleton_self _), rfl⟩

theorem withUpdatedAt_has (cols : List Column) :
    ∃ c ∈ withUpdatedAt cols, c.name = "updatedAt" := by
  by_cases h : cols.any (fun c => c.name = "updatedAt") = true
  · rw [withUpdatedAt, if_pos h]
    obtain ⟨c, hc, hn⟩ := List.any_eq_true.mp h
    exact ⟨c, hc, of_decide_eq_true hn⟩
  · rw [withUpdatedAt, if_neg h]
    exact ⟨updatedAtColDef, List.mem_append_right _ (List.mem_singleton_self _), rfl⟩

theorem ensureGenerated_total (cols : List Column) :
    (∃ c ∈ ensureGenerated cols, c.name = "id") ∧
    (∃ c ∈ ensureGenerated cols, c.name = "createdAt") ∧
    (∃ c ∈ ensureGenerated cols, c.name = "updatedAt") := by
  refine ⟨?_, ?_, withUpdatedAt_has _⟩
  · obtain ⟨c, hc, hn⟩ := withId_has_id cols
    exact ⟨c, mem_withUpdatedAt _ _ (mem_withCreatedAt _ _ hc), hn⟩
  · obtain ⟨c, hc, hn⟩ := withCreatedAt_has (withId cols)
    exact ⟨c, mem_withUpdatedAt _ _ hc, hn⟩

theorem head?_withCreatedAt (x : Column) (l : List Column) :
    (withCreatedAt (x :: l)).head? = some x := by
  unfold withCreatedAt
  split
  · rfl
  · rw [List.cons_append]
    rfl

theorem head?_withUpdatedAt (x : Column) (l : List Column) :
    (withUpdatedAt (x :: l)).head? = some x := by
  unfold withUpdatedAt
  split
  · rfl
  · rw [List.cons_append]
    rfl

theorem withCreatedAt_cons (x : Column) (l : List Column) :
    ∃ l', withCreatedAt (x :: l) = x :: l' := by
  unfold withCreatedAt
  split
  · exact ⟨l, rfl⟩
  · exact ⟨l ++ [createdAtColDef], List.cons_append _ _ _⟩

theorem ensureGenerated_id_front (cols : List Column)
    (h1 : cols.any (fun c => c.name = "id") = false) :
    (ensureGenerated cols).head? = some idColDef := by
  unfold ensureGenerated
  rw [withId, if_neg (by rw [h1]; exact Bool.false_ne_true)]
  obtain ⟨l', hl'⟩ := withCreatedAt_cons idColDef cols
  rw [hl']
  exact head?_withUpdatedAt _ _

theorem any_withId_of_ne (cols : List Column) (key : String)
    (hkey : idColDef.name ≠ key)
    (h : cols.any (fun c => c.name = key) = false) :
    (withId cols).any (fun c => c.name = key) = false := by
  unfold withId
  split
  · exact h
  · simp only [List.any_cons, h, Bool.or_false]
    simpa using hkey

theorem any_withCreatedAt_of_ne (cols : List Column) (key : String)
    (hkey : createdAtColDef.name ≠ key)
    (h : cols.any (fun c => c.name = key) = false) :
    (withCreatedAt cols).any (fun c => c.name = key) = false := by
  unfold withCreatedAt
  split
  · exact h
  · simp only [List.any_append, h, List.any_cons, List.any_nil, Bool.false_or,
      Bool.or_false]
    simpa using hkey

theorem ensureGenerated_createdAt_mem (cols : List Column)
    (h2 : cols.any (fun c => c.name = "createdAt") = false) :
    createdAtColDef ∈ ensureGenerated cols := by
  unfold ensureGenerated
  refine mem_withUpdatedAt _ _ ?_
  rw [withCreatedAt, if_neg (by
    rw [any_withId_of_ne cols "createdAt" (by decide) h2]
    exact Bool.false_ne_true)]
  exact List.mem_append_right _ (List.mem_singleton_self _)

theorem ensureGenerated_updatedAt_mem (cols : List Column)
    (h3 : cols.any (fun c => c.name = "updatedAt") = false) :
    updatedAtColDef ∈ ensureGenerated cols := by
  unfold ensureGenerated
  rw [withUpdatedAt, if_neg (by
    rw [any_withCreatedAt_of_ne (withId cols) "updatedAt" (by decide)
      (any_withId_of_ne cols "updatedAt" (by decide) h3)]
    exact Bool.false_ne_true)]
  exact List.mem_append_right _ (List.mem_singleton_self _)

theorem createMenu_schema_verbatim (now : String) (st : Store) (draft : MenuData) :
    lookupA (DataStore.createMenu now st draft).2.schemas
      (DataStore.createMenu now st draft).1.id = some draft := by
  simp only [DataStore.createMenu]
  exact lookupA_setA_self _ _ _

/-- C2 (amended): the three generated columns are auto-injected only on the
AI-Oracle path — `generateSchema` post-processes the oracle's column list so
that columns named `id`, `createdAt` and `updatedAt` are always present,
prepending/appending the canonical generated column definitions when absent —
whereas `createMenu` stores the caller's schema draft verbatim, with no
injection. -/
theorem C2_theorem :
    (∀ res, generateSchema (.ok res) =
      .ok { res with columns := ensureGenerated res.columns }) ∧
    (∀ cols, (∃ c ∈ ensureGenerated cols, c.name = "id") ∧
      (∃ c ∈ ensureGenerated cols, c.name = "createdAt") ∧
      (∃ c ∈ ensureGenerated cols, c.name = "updatedAt")) ∧
    (∀ cols, cols.any (fun c => c.name = "id") = false →
      (ensureGenerated cols).head? = some idColDef) ∧
    (∀ cols, cols.any (fun c => c.name = "createdAt") = false →
      createdAtColDef ∈ ensureGenerated cols) ∧
    (∀ cols, cols.any (fun c => c.name = "updatedAt") = false →
      updatedAtColDef ∈ ensureGenerated cols) ∧
    (∀ now st draft, lookupA (DataStore.createMenu now st draft).2.schemas
      (DataStore.createMenu now st draft).1.id = some draft) :=
  ⟨fun _ => rfl, ensureGenerated_total, ensureGenerated_id_front,
    ensureGenerated_createdAt_mem, ensureGenerated_updatedAt_mem,
    createMenu_schema_verbatim⟩

/-- C2 witness: injecting into an empty oracle column list puts the canonical
`id` column first. -/
theorem C2_witness : (ensureGenerated []).head? = some idColDef :=
  C2_theorem.2.2.1 [] rfl

/-- C10 witness fixture: a store already holding an entity `m` with one
column and one row inserted. -/
def c10Draft1 : MenuData :=
  ⟨some "m", "M", "t", "d", [⟨"a", .string, "A", false, false, false, none⟩]⟩

/-- C10 second draft reusing the same explicit menuId `m`. -/
def c10Draft2 : MenuData :=
  ⟨some "m", "M2", "t2", "d2", [⟨"b", .string, "B", false, false, false, none⟩]⟩

theorem createMenu_explicit_id (now : String) (st : Store) (draft : MenuData)
    (m : String) (hm : draft.menuId = some m) (hne : m ≠ "") :
    (DataStore.createMenu now st draft).1.id = m ∧
    lookupA (DataStore.createMenu now st draft).2.schemas m = some draft ∧
    lookupA (DataStore.createMenu now st draft).2.data m = some [] := by
  have hid : (DataStore.createMenu now st draft).1.id = m := by
    simp [DataStore.createMenu, hm, hne]
  refine ⟨hid, ?_, ?_⟩
  · have h := createMenu_schema_verbatim now st draft
    rw [hid] at h
    exact h
  · have h : lookupA (DataStore.createMenu now st draft).2.data
        (DataStore.createMenu now st draft).1.id = some [] := by
      simp only [DataStore.createMenu]
      exact lookupA_setA_self _ _ _
    rw [hid] at h
    exact h

theorem createMenu_derived_id (now : String) (st : Store) (draft : MenuData)
    (hm : draft.menuId = none ∨ draft.menuId = some "") :
    (DataStore.createMenu now st draft).1.id =
      DataStore.generateMenuId st draft.menuName := by
  rcases hm with hm | hm <;> simp [DataStore.createMenu, hm]

/-- C10: a schema draft carrying an explicit (truthy) `menuId` is used
verbatim — no uniqueness check and no slug derivation — and `createMenu`
unconditionally overwrites that entity's schema and resets its row list to
empty, even when the id already exists; the collision-avoiding derivation
from `menuName` runs only when the draft supplies no (or an empty, hence
falsy) `menuId`. -/
theorem C10_theorem :
    (∀ now st draft m, draft.menuId = some m → m ≠ "" →
      (DataStore.createMenu now st draft).1.id = m ∧
      lookupA (DataStore.createMenu now st draft).2.schemas m = some draft ∧
      lookupA (DataStore.createMenu now st draft).2.data m = some []) ∧
    (∀ now st draft, (draft.menuId = none ∨ draft.menuId = some "") →
      (DataStore.createMenu now st draft).1.id =
        DataStore.generateMenuId st draft.menuName) :=
  ⟨createMenu_explicit_id, createMenu_derived_id⟩

/-- C1 counterexample fixture: an entity `m` with an empty column list. -/
def c1Store : Store :=
  (DataStore.createMenu "T0" Store.empty ⟨some "m", "M", "t", "d", []⟩).2

/-- The stored ids of entity `m` after inserting `{id:"a"}` twice. -/
def c1Ids : Option (List (Option Value)) :=
  match DataStore.insert "T1" c1Store "m" [("id", Value.str "a")] with
  | .ok p =>
    match DataStore.insert "T2" p.2 "m" [("id", Value.str "a")] with
    | .ok q => some (DataStore.rowIds q.2 "m")
    | .error _ => none
  | .error _ => none

/-- C1 counterexample: insert honours a caller-supplied id with no uniqueness
check, so inserting `{id:"a"}` twice stores two rows with the same id — the
claimed per-entity id uniqueness fails. -/
theorem C1_counterexample :
    c1Ids = some [some (Value.str "a"), some (Value.str "a")] ∧
    ¬ ([some (Value.str "a"), some (Value.str "a")] :
      List (Option Value)).Nodup :=
  ⟨rfl, by decide⟩

/-- C1 (amended): over any sequence of inserts and updates on a created
entity whose schema types `id` as string, in which every insert relies on the
generated id (carries no caller id), the stored ids are pairwise distinct;
a successful update never changes any stored id; an insert whose raw row
carries no `id` stores a fresh generated id (the next uuid draw); and a
caller-supplied (non-empty-string) id is stored verbatim with no uniqueness
check — which is why duplicates are possible when callers supply ids. -/
theorem C1_theorem :
    (∀ now st draft ops, DataStore.idTypeOk draft.columns →
      (∀ op ∈ ops, DataStore.genOnly op) →
      (DataStore.rowIds
        (DataStore.runOps (DataStore.createMenu now st draft).2 ops)
        (DataStore.createMenu now st draft).1.id).Nodup) ∧
    (∀ now st menuId rid updates p, DataStore.IdInv menuId st →
      DataStore.update now st menuId rid updates = .ok p →
      DataStore.rowIds p.2 menuId = DataStore.rowIds st menuId) ∧
    (∀ now st menuId rowData schema p,
      lookupA st.schemas menuId = some schema →
      DataStore.idTypeOk schema.columns → lookupA rowData "id" = none →
      DataStore.insert now st menuId rowData = .ok p →
      lookupA p.1 "id" = some (Value.str (freshUuid st.ctr))) ∧
    (∀ now st menuId rowData v schema p,
      lookupA st.schemas menuId = some schema →
      DataStore.idTypeOk schema.columns → lookupA rowData "id" = some v →
      v ≠ Value.str "" →
      DataStore.insert now st menuId rowData = .ok p →
      lookupA p.1 "id" = some v) := by
  refine ⟨?_, ?_, ?_, ?_⟩
  · intro now st draft ops hids hops
    exact DataStore.IdInv_nodup _ _
      (DataStore.runOps_IdInv _ ops _
        (DataStore.createMenu_IdInv now st draft hids) hops)
  · intro now st menuId rid updates p hinv h
    exact (DataStore.update_rowIds_eq now st menuId rid updates p hinv h).1
  · intro now st menuId rowData schema p hs hids hraw h
    obtain ⟨schema', hs', hd, hp⟩ :=
      DataStore.insert_ok_elim now st menuId rowData p h
    rw [hs] at hs'
    injection hs' with he
    subst he
    subst hp
    have hid : DataStore.insIdVal st rowData = Value.str (freshUuid st.ctr) := by
      simp [DataStore.insIdVal, hraw]
    have hvs : DataStore.insIdVal st rowData ≠ Value.str "" := by
      rw [hid]
      intro hcon
      injection hcon with hcon
      exact DataStore.freshUuid_ne_empty _ hcon
    have h1 := DataStore.insertResult_row_id now st menuId rowData schema hids hvs
    rw [hid] at h1
    exact h1
  · intro now st menuId rowData v schema p hs hids hraw hvne h
    obtain ⟨schema', hs', hd, hp⟩ :=
      DataStore.insert_ok_elim now st menuId rowData p h
    rw [hs] at hs'
    injection hs' with he
    subst he
    subst hp
    have hid : DataStore.insIdVal st rowData = v := by
      simp [DataStore.insIdVal, hraw]
    have hvs : DataStore.insIdVal st rowData ≠ Value.str "" := by
      rw [hid]
      exact hvne
    have h1 := DataStore.insertResult_row_id now st menuId rowData schema hids hvs
    rw [hid] at h1
    exact h1

/-- C1 witness: two generated-id inserts into a fresh entity yield distinct
stored ids. -/
theorem C1_witness :
    (DataStore.rowIds
      (DataStore.runOps
        (DataStore.createMenu "T0" Store.empty ⟨some "w1", "W", "t", "d", []⟩).2
        [DataStore.Op.ins "T1" "w1" [("name", Value.str "Kim")],
         DataStore.Op.ins "T2" "w1" [("name", Value.str "Lee")]])
      (DataStore.createMenu "T0" Store.empty ⟨some "w1", "W", "t", "d", []⟩).1.id).Nodup :=
  C1_theorem.1 "T0" Store.empty ⟨some "w1", "W", "t", "d", []⟩
    [DataStore.Op.ins "T1" "w1" [("name", Value.str "Kim")],
     DataStore.Op.ins "T2" "w1" [("name", Value.str "Lee")]]
    (fun c hc _ => absurd hc (List.not_mem_nil c))
    (by
      intro op hop
      rcases List.mem_cons.mp hop with h | h
      · subst h
        show lookupA [("name", Value.str "Kim")] "id" = none
        decide
      · rcases List.mem_cons.mp h with h | h
        · subst h
          show lookupA [("name", Value.str "Lee")] "id" = none
          decide
        · exact absurd h (List.not_mem_nil op))

theorem mergedRow_createdAt (now : String) (old updates : Row) (v : Value)
    (hca : lookupA old "createdAt" = some v) :
    lookupA (DataStore.mergedRow now old updates) "createdAt" = some v := by
  unfold DataStore.mergedRow DataStore.restoreKey
  rw [lookupA_setA_ne _ _ _ _ (by decide), hca]
  exact lookupA_setA_self _ _ _

theorem mergedRow_updatedAt (now : String) (old updates : Row) :
    lookupA (DataStore.mergedRow now old updates) "updatedAt" =
      some (Value.str now) := by
  unfold DataStore.mergedRow
  exact lookupA_setA_self _ _ _

theorem mergedRow_other (now : String) (old updates : Row) (k : String)
    (h1 : k ≠ "id") (h2 : k ≠ "createdAt") (h3 : k ≠ "updatedAt") :
    lookupA (DataStore.mergedRow now old updates) k =
      lookupA (DataStore.mergeRow old updates) k := by
  unfold DataStore.mergedRow DataStore.restoreKey
  rw [lookupA_setA_ne _ _ _ _ h3]
  cases hca : lookupA old "createdAt" with
  | some v =>
    rw [lookupA_setA_ne _ _ _ _ h2]
    cases hid : lookupA old "id" with
    | some w => rw [lookupA_setA_ne _ _ _ _ h1]
    | none => rw [lookupA_eraseA_ne _ _ _ h1]
  | none =>
    rw [lookupA_eraseA_ne _ _ _ h2]
    cases hid : lookupA old "id" with
    | some w => rw [lookupA_setA_ne _ _ _ _ h1]
    | none => rw [lookupA_eraseA_ne _ _ _ h1]

/-- C6 fixture: an entity `mw` with one `number` column `x`. -/
def c6wStore : Store :=
  (DataStore.createMenu "T0" Store.empty
    ⟨some "mw", "MW", "t", "d",
      [⟨"x", .number, "X", false, false, false, none⟩]⟩).2

/-- The row returned by updating `x` of the stored row to the non-numeric
string `"abc"`. -/
def c6Run : Except String Row :=
  match DataStore.insert "T1" c6wStore "mw"
      [("id", Value.str "r1"), ("x", Value.num 1)] with
  | .ok p => (DataStore.update "T3" p.2 "mw" (Value.str "r1")
      [("x", Value.str "abc")]).map (fun q => q.1)
  | .error e => .error e

/-- C6 counterexample: the claim's "remaining fields are the caller's updates
merged over the prior row" fails — the merge carries `x = "abc"`, but update
re-validates the merged row, so the non-numeric string in the `number` field
is stored as null. -/
theorem C6_counterexample :
    c6Run.map (fun row => lookupA row "x") = .ok (some Value.null) ∧
    lookupA (DataStore.mergeRow
      [("id", Value.str "r1"), ("x", Value.num 1), ("createdAt", Value.str "T1"),
       ("updatedAt", Value.str "T1")] [("x", Value.str "abc")]) "x" =
      some (Value.str "abc") ∧
    some (Value.str "abc") ≠ (some Value.null : Option Value) :=
  ⟨rfl, rfl, by decide⟩

/-- C6 (amended): update restores `id` and `createdAt` to their pre-update
values, overriding anything the caller sent, and stamps `updatedAt` with the
current time (given that the columns named like the generated fields are not
`number`-typed and the restored values are not the empty string — true of
every row this system stores); the remaining fields are the caller's updates
merged over the prior row and then re-coerced by the row validator — fields
named by no schema column are exactly the merge, fields named by a schema
column are `coerceField` of the merge. -/
theorem C6_theorem :
    ∀ now st menuId rid updates p schema index cAt,
      lookupA st.schemas menuId = some schema →
      DataStore.findIdxA (fun r => lookupA r "id" == some rid)
        ((lookupA st.data menuId).getD []) = some index →
      (∀ c ∈ schema.columns,
        (c.name = "id" ∨ c.name = "createdAt" ∨ c.name = "updatedAt") →
        c.type ≠ ColType.number) →
      rid ≠ Value.str "" →
      lookupA (((lookupA st.data menuId).getD []).getD index []) "createdAt" =
        some cAt →
      cAt ≠ Value.str "" →
      now ≠ "" →
      DataStore.update now st menuId rid updates = .ok p →
      lookupA p.1 "id" = some rid ∧
      lookupA p.1 "createdAt" = some cAt ∧
      lookupA p.1 "updatedAt" = some (Value.str now) ∧
      (∀ k, (∀ c ∈ schema.columns, c.name ≠ k) →
        lookupA p.1 k = lookupA (DataStore.mergedRow now
          (((lookupA st.data menuId).getD []).getD index []) updates) k) ∧
      (∀ k, k ≠ "id" → k ≠ "createdAt" → k ≠ "updatedAt" →
        lookupA (DataStore.mergedRow now
          (((lookupA st.data menuId).getD []).getD index []) updates) k =
          lookupA (DataStore.mergeRow
            (((lookupA st.data menuId).getD []).getD index []) updates) k) ∧
      (∀ k pre c post, schema.columns = pre ++ c :: post → c.name = k →
        (∀ c' ∈ pre, c'.name ≠ k) → (∀ c' ∈ post, c'.name ≠ k) →
        lookupA p.1 k = coerceField (lookupA (DataStore.mergedRow now
          (((lookupA st.data menuId).getD []).getD index []) updates) k) c) := by
  intro now st menuId rid updates p schema index cAt hs hidx hsch hrid hca hcAt hnow h
  obtain ⟨index', schema', hd, hidx', hs', hp⟩ :=
    DataStore.update_ok_elim now st menuId rid updates p h
  rw [hidx] at hidx'
  injection hidx' with hie
  subst hie
  rw [hs] at hs'
  injection hs' with he
  subst he
  subst hp
  have hrow : (DataStore.updateResult now st menuId updates schema index).1 =
      (validateRow (DataStore.mergedRow now
        (((lookupA st.data menuId).getD []).getD index []) updates)
        schema.columns).1 := rfl
  have ho : lookupA (((lookupA st.data menuId).getD []).getD index []) "id" =
      some rid := DataStore.update_target_id st menuId rid index hidx
  refine ⟨?_, ?_, ?_, ?_, ?_, ?_⟩
  · rw [hrow]
    exact validateRow_preserve_some _ _ _ _
      (fun c hc hn => hsch c hc (Or.inl hn))
      (DataStore.mergedRow_id _ _ _ _ ho) hrid
  · rw [hrow]
    exact validateRow_preserve_some _ _ _ _
      (fun c hc hn => hsch c hc (Or.inr (Or.inl hn)))
      (mergedRow_createdAt now _ updates cAt hca) hcAt
  · rw [hrow]
    refine validateRow_preserve_some _ _ _ _
      (fun c hc hn => hsch c hc (Or.inr (Or.inr hn)))
      (mergedRow_updatedAt now _ updates) ?_
    intro hcon
    injection hcon with hcon
    exact hnow hcon
  · intro k hk
    rw [hrow]
    exact validateRow_lookup_ne _ _ _ hk
  · intro k h1 h2 h3
    exact mergedRow_other now _ updates k h1 h2 h3
  · intro k pre c post hdec hname hpre hpost
    subst hname
    rw [hrow, hdec]
    exact validateRow_field_fst pre c post _ hpre hpost

/-- C6 witness: updating `{id:"forged-irrelevant"}`-style content — here
`x:"abc"` — leaves `id` and `createdAt` at their pre-update values and stamps
`updatedAt` to the call time. -/
def c6wStore2 : Store :=
  match DataStore.insert "T1" c6wStore "mw"
      [("id", Value.str "r1"), ("x", Value.num 1)] with
  | .ok p => p.2
  | .error _ => Store.empty

/-- The pair returned by the witness update call. -/
def c6wP : Row × Store :=
  ((DataStore.update "T3" c6wStore2 "mw" (Value.str "r1")
    [("x", Value.str "abc")]).toOption).getD ([], Store.empty)

/-- C6 witness. -/
theorem C6_witness :
    lookupA c6wP.1 "id" = some (Value.str "r1") ∧
    lookupA c6wP.1 "createdAt" = some (Value.str "T1") ∧
    lookupA c6wP.1 "updatedAt" = some (Value.str "T3") := by
  have h := C6_theorem "T3" c6wStore2 "mw" (Value.str "r1")
    [("x", Value.str "abc")] c6wP
    ⟨some "mw", "MW", "t", "d", [⟨"x", .number, "X", false, false, false, none⟩]⟩
    0 (Value.str "T1") rfl rfl (by decide) (by decide) rfl (by decide) (by decide)
    rfl
  exact ⟨h.1, h.2.1, h.2.2.1⟩

/-- C10 witness: recreating entity `m` replaces its schema and wipes a
previously inserted row — no uniqueness check, silent replacement. -/
theorem C10_witness :
    (DataStore.createMenu "T2"
      (DataStore.createMenu "T0" Store.empty c10Draft1).2 c10Draft2).1.id = "m" ∧
    lookupA (DataStore.createMenu "T2"
      (DataStore.createMenu "T0" Store.empty c10Draft1).2 c10Draft2).2.schemas "m" =
      some c10Draft2 ∧
    lookupA (DataStore.createMenu "T2"
      (DataStore.createMenu "T0" Store.empty c10Draft1).2 c10Draft2).2.data "m" =
      some [] :=
  C10_theorem.1 "T2" (DataStore.createMenu "T0" Store.empty c10Draft1).2
    c10Draft2 "m" rfl (by decide)
